import Mathlib

/-!
# Verification of the daemonshepherd supervisor core

A shallow embedding, in Lean 4, of the supervisor core of the
seismometer-toolbox repository
(`lib/seismometer/daemonshepherd/controller.py`,
`lib/seismometer/daemonshepherd/daemon.py`,
`lib/seismometer/daemonshepherd/control_socket.py`), together with
theorems settling the specification claims about the restart queue,
the reload convergence algorithm, the daemon builder and the control
channel.

Modelling conventions:
* Python dictionaries are modelled as association lists
  (`List (String × α)`), with `lookupA` / `insertA` / `updateA` /
  `eraseA` mirroring item access, assignment, in-place update and
  `del`.
* `time.time()` is modelled as an explicit `now : Int` parameter
  (whole seconds suffice for every claim considered).
* The `heapq` binary heap of `(wake_time, daemon_name)` pairs is
  modelled at the abstraction the controller relies on: a list kept
  ordered by wake-time, where `heappush` inserts in order and
  popping takes the head.  Every property proved below depends only
  on this priority-queue behaviour, not on the array layout of the
  heap.
* Code that can raise a Python exception (`KeyError` of `del`,
  `IndexError` of list indexing) is modelled in `Option`, `none`
  standing for the raised exception.
-/

namespace DaemonShepherd

/-! ## Association-list maps (Python dictionaries) -/

def lookupA {α : Type} : List (String × α) → String → Option α
  | [], _ => none
  | (k', v) :: t, k => if k' = k then some v else lookupA t k

def insertA {α : Type} : List (String × α) → String → α → List (String × α)
  | [], k, v => [(k, v)]
  | (k', v') :: t, k, v =>
      if k' = k then (k, v) :: t else (k', v') :: insertA t k v

def updateA {α : Type} : List (String × α) → String → (α → α) → List (String × α)
  | [], _, _ => []
  | (k', v') :: t, k, f =>
      if k' = k then (k', f v') :: t else (k', v') :: updateA t k f

def eraseA {α : Type} (m : List (String × α)) (k : String) : List (String × α) :=
  m.filter (fun kv => kv.1 ≠ k)

theorem lookupA_insertA_self {α : Type} (m : List (String × α)) (k : String) (v : α) :
    lookupA (insertA m k v) k = some v := by
  induction m with
  | nil => simp [insertA, lookupA]
  | cons hd t ih =>
      by_cases h : hd.1 = k
      · simp [insertA, lookupA, h]
      · simp [insertA, lookupA, h, ih]

theorem lookupA_insertA_ne {α : Type} (m : List (String × α)) (k k' : String) (v : α)
    (h : k ≠ k') : lookupA (insertA m k v) k' = lookupA m k' := by
  induction m with
  | nil => simp [insertA, lookupA, h]
  | cons hd t ih =>
      by_cases hh : hd.1 = k
      · simp [insertA, lookupA, hh, h]
      · simp only [insertA, if_neg hh]
        by_cases hk : hd.1 = k'
        · simp [lookupA, hk]
        · simp [lookupA, hk, ih]

theorem lookupA_updateA_self {α : Type} (m : List (String × α)) (k : String) (f : α → α) :
    lookupA (updateA m k f) k = (lookupA m k).map f := by
  induction m with
  | nil => simp [updateA, lookupA]
  | cons hd t ih =>
      by_cases h : hd.1 = k
      · simp [updateA, lookupA, h]
      · simp [updateA, lookupA, h, ih]

theorem lookupA_updateA_ne {α : Type} (m : List (String × α)) (k k' : String) (f : α → α)
    (h : k ≠ k') : lookupA (updateA m k f) k' = lookupA m k' := by
  induction m with
  | nil => simp [updateA]
  | cons hd t ih =>
      by_cases hh : hd.1 = k
      · subst hh
        simp [updateA, lookupA, h]
      · simp only [updateA, if_neg hh]
        by_cases hk : hd.1 = k'
        · simp [lookupA, hk]
        · simp [lookupA, hk, ih]

theorem lookupA_eraseA_self {α : Type} (m : List (String × α)) (k : String) :
    lookupA (eraseA m k) k = none := by
  induction m with
  | nil => simp [eraseA, lookupA]
  | cons hd t ih =>
      by_cases h : hd.1 = k
      · simpa [eraseA, List.filter, h] using ih
      · simpa [eraseA, List.filter, h, lookupA] using ih

theorem lookupA_eraseA_ne {α : Type} (m : List (String × α)) (k k' : String)
    (h : k ≠ k') : lookupA (eraseA m k) k' = lookupA m k' := by
  induction m with
  | nil => simp [eraseA]
  | cons hd t ih =>
      by_cases hh : hd.1 = k
      · have hk : ¬ hd.1 = k' := by rw [hh]; exact h
        have : eraseA (hd :: t) k = eraseA t k := by
          simp [eraseA, List.filter, hh]
        rw [this, ih]
        simp [lookupA, hk]
      · have : eraseA (hd :: t) k = hd :: eraseA t k := by
          simp [eraseA, List.filter, hh]
        rw [this]
        by_cases hk : hd.1 = k'
        · simp [lookupA, hk]
        · simp [lookupA, hk, ih]

theorem lookupA_isSome_of_mem {α : Type} {m : List (String × α)} {kv : String × α}
    (h : kv ∈ m) : (lookupA m kv.1).isSome := by
  induction m with
  | nil => cases h
  | cons hd t ih =>
      rcases List.mem_cons.mp h with h' | h'
      · simp [lookupA, ← h']
      · by_cases hh : hd.1 = kv.1
        · simp [lookupA, hh]
        · simpa [lookupA, hh] using ih h'

/-! ## Restart queue (`controller.py`, class `RestartQueue`) -/

/-- `DEFAULT_BACKOFF` from `controller.py`. -/
def DEFAULT_BACKOFF : List Int := [0, 5, 15, 30, 60]

/-- State of a `RestartQueue` instance: the pending-restart heap
(`(wake_time, daemon_name)` pairs, a cancelled entry carrying `none`
as its name), and the three per-daemon bookkeeping dictionaries. -/
structure RestartQueue where
  restart_queue : List (Int × Option String)
  backoff       : List (String × List Int)
  backoff_pos   : List (String × Nat)
  restart_time  : List (String × Option Int)
deriving DecidableEq

def rqEmpty : RestartQueue := ⟨[], [], [], []⟩

/-- `heapq.heappush` on the wake-time priority queue, modelled as an
ordered insert (see the module comment). -/
def heappush : List (Int × Option String) → (Int × Option String) → List (Int × Option String)
  | [], e => [e]
  | x :: t, e => if e.1 < x.1 then e :: x :: t else x :: heappush t e

/-- `RestartQueue.list_restarts`. -/
def list_restarts (q : RestartQueue) : List (Int × String) :=
  q.restart_queue.filterMap (fun e =>
    match e.2 with
    | some n => some (e.1, n)
    | none => none)

/-- `RestartQueue.clear`. -/
def rqClear : RestartQueue := rqEmpty

/-- `RestartQueue.add`. -/
def rqAdd (q : RestartQueue) (daemon_name : String) (backoff : List Int) : RestartQueue :=
  { q with
    backoff := insertA q.backoff daemon_name backoff
    backoff_pos := insertA q.backoff_pos daemon_name 0
    restart_time := insertA q.restart_time daemon_name none }

/-- `RestartQueue.daemon_started`. -/
def daemon_started (q : RestartQueue) (name : String) (now : Int) : RestartQueue :=
  match lookupA q.backoff name with
  | none => q -- ignore unknown daemons
  | some _ => { q with restart_time := insertA q.restart_time name (some now) }

/-- `RestartQueue.daemon_stopped`. -/
def daemon_stopped (q : RestartQueue) (name : String) : RestartQueue :=
  match lookupA q.backoff name with
  | none => q -- ignore unknown daemons
  | some _ =>
      { q with
        restart_time := insertA q.restart_time name none
        backoff_pos := insertA q.backoff_pos name 0 }

/-- The `if restart_backoff < 1: restart_backoff = 1` floor of
`daemon_died` ("minimum backoff: 1s"). -/
def floor1 (x : Int) : Int := if x < 1 then 1 else x

/-- The back-off reset test of `daemon_died`: a recorded start time
exists and the daemon had been running longer than 10 seconds and
longer than twice the (floored) current back-off. -/
def dd_reset (rt : Option Int) (now rb1 : Int) : Bool :=
  match rt with
  | some t0 => decide (now - t0 > 10) && decide (now - t0 > 2 * rb1)
  | none => false

/-- `RestartQueue.daemon_died`.  The exit code / signal name argument
only feeds log messages, so it is omitted; the two `time.time()`
calls of the body are both modelled by the single instant `now`.
`none` models a raised `KeyError`/`IndexError`.  Note that on reset
the scheduled back-off is `backoff[0]` itself — the floor is applied
before the reset check only. -/
def daemon_died (q : RestartQueue) (name : String) (now : Int) : Option RestartQueue :=
  match lookupA q.backoff name with
  | none => some q -- ignore unknown daemons
  | some bl =>
    match lookupA q.backoff_pos name, lookupA q.restart_time name with
    | some pos, some rt =>
      match bl.get? pos with
      | none => none
      | some rb0 =>
        if dd_reset rt now (floor1 rb0) then
          match bl.get? 0 with
          | none => none
          | some b0 =>
            -- backoff_pos was reset to 0, then advanced unless at the end
            some { q with
              backoff_pos := insertA q.backoff_pos name (if 1 < bl.length then 1 else 0)
              restart_queue := heappush q.restart_queue (now + b0, some name) }
        else
          some { q with
            backoff_pos := insertA q.backoff_pos name
              (if pos + 1 < bl.length then pos + 1 else pos)
            restart_queue := heappush q.restart_queue (now + floor1 rb0, some name) }
    | _, _ => none

/-- `RestartQueue._remove_cancelled`: pop cancelled entries from the
head of the queue. -/
def removeCancelled : List (Int × Option String) → List (Int × Option String)
  | [] => []
  | (_, none) :: rest => removeCancelled rest
  | q => q

/-- `RestartQueue.cancel_restart`: tombstone each heap entry of the
daemon, reset its back-off position and restart time, and compact the
head of the queue. -/
def cancel_restart (q : RestartQueue) (name : String) : RestartQueue :=
  match lookupA q.backoff name with
  | none => q -- ignore unknown daemons
  | some _ =>
      let rq := q.restart_queue.map (fun e =>
        if e.2 = some name then (e.1, (none : Option String)) else e)
      { q with
        restart_queue := removeCancelled rq
        backoff_pos := insertA q.backoff_pos name 0
        restart_time := insertA q.restart_time name none }

/-- `RestartQueue.remove`.  In the Python 2 source the guard reads
`if name not in self.backoff: return`, but the function's parameter
is `daemon_name`; `name` resolves to the module-level variable leaked
from the `SIGNAL_NAMES` list comprehension (so it holds one of the
`signal.SIG*` names, e.g. `"SIGTERM"`).  That leaked variable is
modelled here as the explicit argument `leaked`.  The three `del`
statements raise `KeyError` (`none`) when the daemon is unknown and
the guard did not return early. -/
def rqRemove (leaked : String) (q : RestartQueue) (daemon_name : String) :
    Option RestartQueue :=
  if (lookupA q.backoff leaked).isNone then some q -- "ignore unknown daemons"
  else
    let q1 := cancel_restart q daemon_name
    match lookupA q1.backoff daemon_name, lookupA q1.backoff_pos daemon_name,
          lookupA q1.restart_time daemon_name with
    | some _, some _, some _ =>
        some { q1 with
          backoff := eraseA q1.backoff daemon_name
          backoff_pos := eraseA q1.backoff_pos daemon_name
          restart_time := eraseA q1.restart_time daemon_name }
    | _, _, _ => none

/-- The pop loop of `RestartQueue.get_restart_ready`: pop entries whose
wake-time has passed, collecting the names of non-cancelled ones. -/
def popReady (now : Int) : List (Int × Option String) → List String × List (Int × Option String)
  | [] => ([], [])
  | (t, n) :: rest =>
      if t < now then
        let r := popReady now rest
        match n with
        | some d => (d :: r.1, r.2)
        | none => r
      else ([], (t, n) :: rest)

/-- `RestartQueue.get_restart_ready`. -/
def get_restart_ready (q : RestartQueue) (now : Int) : List String × RestartQueue :=
  let r := popReady now q.restart_queue
  (r.1, { q with restart_queue := removeCancelled r.2 })

/-! ## Commands and daemons (`daemon.py`) -/

/-- `signal.SIGTERM`. -/
def SIGTERM : Int := 15

/-- The `stdout` disposition of a `Command` (`None` / `Command.DEVNULL`
/ `Command.PIPE`). -/
inductive StdoutOpt
  | devnull
  | pipe
deriving DecidableEq

/-- The value class `Command`: everything `Command.__init__` stores and
`Command.__eq__` compares. -/
structure Command where
  environment : Option (List (String × String))
  cwd : Option String
  user : Option String
  group : Option String
  stdout : Option StdoutOpt
  args : List String
  command : String
deriving DecidableEq

/-- The characters of `Command.SHELL_META` (the regexp character class
`[]'"$&*()` + backquote + braces + `\\;<|>?[`). -/
def shellMetaChars : String := "]\x27\"$&*()`\x7b\x7d\\;<|>?["

def hasShellMeta (s : String) : Bool :=
  s.any (fun c => shellMetaChars.contains c)

/-- `re.split('[ \t\r\n]+', s)`: split on runs of whitespace; a leading
or trailing separator contributes an empty field, interior runs do
not. -/
def isSpaceChar (c : Char) : Bool :=
  c = ' ' || c = '\t' || c = '\r' || c = '\n'

def dropInteriorEmpty : List String → List String
  | [] => []
  | [x] => [x]
  | "" :: (y :: t) => dropInteriorEmpty (y :: t)
  | x :: (y :: t) => x :: dropInteriorEmpty (y :: t)

def splitWS (s : String) : List String :=
  match s.split isSpaceChar with
  | [] => []
  | x :: t => x :: dropInteriorEmpty t

/-- `Command.__init__`: shell metacharacters force `/bin/sh -c`;
otherwise the string is split on whitespace; `command_name` overrides
`argv[0]`. -/
def mkCommand (command : String) (command_name : Option String)
    (environment : Option (List (String × String))) (cwd : Option String)
    (stdout : Option StdoutOpt) (user : Option String) (group : Option String) :
    Command :=
  let (args, cmd) :=
    if hasShellMeta command then (["/bin/sh", "-c", command], "/bin/sh")
    else
      let a := splitWS command
      (a, a.headD "")
  let args :=
    match command_name with
    | some n =>
        match args with
        | [] => []
        | _ :: rest => n :: rest
    | none => args
  { environment := environment, cwd := cwd, user := user, group := group,
    stdout := stdout, args := args, command := cmd }

/-- An administrative action: a `Signal` instance or a `Command`
instance. -/
inductive Action
  | sig (signal : Int) (group : Bool)
  | cmd (c : Command)
deriving DecidableEq

/-- Equality as Python evaluates `==` on start commands:
`Signal.__eq__` compares only the signal numbers (not the `group`
flag); `Command.__eq__` compares all fields; a `Signal` never equals
a `Command` (the `isinstance` guards). -/
def actionEq : Action → Action → Bool
  | Action.sig s1 _, Action.sig s2 _ => s1 = s2
  | Action.cmd c1, Action.cmd c2 => c1 = c2
  | _, _ => false

/-- The `spec` dictionary handed to `build_command` (the per-command
sub-dictionary of the daemon spec).  Signal numbers stand for the
name-or-number accepted by `Signal.__init__`. -/
structure CmdSpec where
  command : Option String
  command_name : Option String
  sigval : Option Int
  process_group : Option Bool
  environment : Option (List (String × String))
  cwd : Option String
  user : Option String
  group : Option String
deriving DecidableEq

/-- The `defaults` dictionary `build` passes to `build_command`. -/
structure CmdDefaults where
  environment : Option (List (String × String))
  cwd : Option String
  user : Option String
  group : Option String

def emptyCmdSpec : CmdSpec :=
  ⟨none, none, none, none, none, none, none, none⟩

def emptyCmdDefaults : CmdDefaults := ⟨none, none, none, none⟩

/-- `build_command(spec, defaults, stdout)` from `daemon.py`.  A falsy
`command` (absent or empty string) selects the `Signal` branch. -/
def build_command (spec : CmdSpec) (defaults : CmdDefaults) (stdout : Option String) :
    Action :=
  match spec.command with
  | none => -- no "command" key
      match spec.sigval with
      | some s => Action.sig s (spec.process_group.getD false)
      | none => Action.sig SIGTERM true
  | some c =>
      if c = "" then -- empty string is falsy in Python
        match spec.sigval with
        | some s => Action.sig s (spec.process_group.getD false)
        | none => Action.sig SIGTERM true
      else
        let stdout_option : Option StdoutOpt :=
          if stdout = some "console" ∨ stdout = none then none
          else if stdout = some "/dev/null" then some StdoutOpt.devnull
          else some StdoutOpt.pipe -- assume it's stdout == "log"
        Action.cmd (mkCommand c
          spec.command_name
          (spec.environment.orElse (fun _ => defaults.environment))
          (spec.cwd.orElse (fun _ => defaults.cwd))
          stdout_option
          (spec.user.orElse (fun _ => defaults.user))
          (spec.group.orElse (fun _ => defaults.group)))

/-- One daemon's specification as produced by the config loader (the
values `build` reads out of the spec dictionary). -/
structure DSpec where
  start_command : Option String
  argv0 : Option String
  environment : Option (List (String × String))
  cwd : Option String
  user : Option String
  group : Option String
  stdout : Option String
  stop_command : Option String
  stop_signal : Option Int
  commands : List (String × CmdSpec)
  restart : Option (List Int)
  start_priority : Option Int
deriving DecidableEq

def emptyDSpec : DSpec :=
  ⟨none, none, none, none, none, none, none, none, none, [], none, none⟩

/-- The `Daemon` object `build` returns (before the controller attaches
its metadata). -/
structure DaemonObj where
  start_command : Action
  admin_commands : List (String × Action)
deriving DecidableEq

/-- `build(spec)` from `daemon.py`: construct the start command, build
every entry of `spec["commands"]`, and guarantee a `"stop"` admin
command — from `stop_command`, from `stop_signal` (process only!), or
the default `SIGTERM` to the process group. -/
def build (spec : DSpec) : DaemonObj :=
  let command_defaults : CmdDefaults :=
    ⟨spec.environment, spec.cwd, spec.user, spec.group⟩
  let start_command := build_command
    { emptyCmdSpec with command := spec.start_command, command_name := spec.argv0 }
    command_defaults spec.stdout
  let admin0 : List (String × Action) :=
    spec.commands.foldl
      (fun m nc => insertA m nc.1 (build_command nc.2 command_defaults (some "log")))
      []
  let admin_commands :=
    if (lookupA admin0 "stop").isSome then admin0
    else
      match spec.stop_command with
      | some sc =>
          insertA admin0 "stop"
            (build_command { emptyCmdSpec with command := some sc }
              command_defaults (some "log"))
      | none =>
          match spec.stop_signal with
          | some sg =>
              insertA admin0 "stop"
                (build_command
                  { emptyCmdSpec with sigval := some sg, process_group := some false }
                  emptyCmdDefaults none)
          | none =>
              insertA admin0 "stop"
                (build_command
                  { emptyCmdSpec with sigval := some SIGTERM, process_group := some true }
                  emptyCmdDefaults none)
  { start_command := start_command, admin_commands := admin_commands }

/-! ## Controller fleet and `reload()` (`controller.py`, class `Controller`)

A fleet entry is a `Daemon` object together with the metadata the
controller stores in it (`"name"`, `"running"`, `"restart"`,
`"start_priority"`) and its child state. -/

structure Handle where
  start_command : Action
  admin_commands : List (String × Action)
  child_pid : Option Nat
  name : String
  running : Bool
  restart : List Int
  start_priority : Int
deriving DecidableEq

/-- `Daemon.__eq__`: handles compare equal iff their start commands
do. -/
def daemonEq (a b : Handle) : Bool :=
  actionEq a.start_command b.start_command

/-- The child-management events the controller performs: `_stop`
(stop admin command + reap) and `_start` (fork the child). -/
inductive Ev
  | stop (name : String)
  | start (name : String)
deriving DecidableEq

/-- Controller state: the `daemons` dictionary, the restart queue, and
a counter supplying fresh child pids for `Command.run`. -/
structure CState where
  fleet : List (String × Handle)
  queue : RestartQueue
  nextPid : Nat
deriving DecidableEq

/-- `Controller._stop`: notify the restart queue, then
`Daemon.stop()` (reaps the child, clearing its pid) and clear the
`"running"` flag.  `none` models the `KeyError` of an unknown name
(never reached from the call sites modelled here). -/
def doStop (st : CState) (name : String) : Option (CState × List Ev) :=
  match lookupA st.fleet name with
  | none => none
  | some _ =>
      some ({ st with
          queue := daemon_stopped st.queue name
          fleet := updateA st.fleet name
            (fun h => { h with child_pid := none, running := false }) },
        [Ev.stop name])

/-- `Controller._start`: notify the restart queue, then
`Daemon.start()` (a silent no-op when a child already runs, otherwise
fork a fresh child) and set the `"running"` flag. -/
def doStart (st : CState) (name : String) (now : Int) : Option (CState × List Ev) :=
  match lookupA st.fleet name with
  | none => none
  | some h =>
      if h.child_pid.isSome then
        some ({ st with
            queue := daemon_started st.queue name now
            fleet := updateA st.fleet name (fun g => { g with running := true }) },
          [Ev.start name])
      else
        some ({ st with
            queue := daemon_started st.queue name now
            fleet := updateA st.fleet name
              (fun g => { g with child_pid := some st.nextPid, running := true })
            nextPid := st.nextPid + 1 },
          [Ev.start name])

/-- `daemon.build(spec)` plus the metadata assignments of
`Controller.reload` (lines setting `"name"`, `"running"`,
`"restart"`, `"start_priority"`). -/
def buildHandle (name : String) (spec : DSpec) : Handle :=
  let d := build spec
  { start_command := d.start_command
    admin_commands := d.admin_commands
    child_pid := none
    name := name
    running := false
    restart := spec.restart.getD DEFAULT_BACKOFF
    start_priority := spec.start_priority.getD 10 }

/-- The categorisation pass of `reload()`: outgoing names and the
built handles split into `daemons_to_start` / `daemons_to_restart` /
`daemons_to_update`. -/
def classify (fleet : List (String × Handle)) (specs : List (String × DSpec)) :
    List String × List (String × Handle) × List (String × Handle) ×
      List (String × Handle) :=
  let toStop := (fleet.filter (fun nh => (lookupA specs nh.1).isNone)).map (·.1)
  let built := specs.map (fun ns => (ns.1, buildHandle ns.1 ns.2))
  let toStart := built.filter (fun nh => (lookupA fleet nh.1).isNone)
  let toRestart := built.filter (fun nh =>
    match lookupA fleet nh.1 with
    | some h => !(daemonEq nh.2 h)
    | none => false)
  let toUpdate := built.filter (fun nh =>
    match lookupA fleet nh.1 with
    | some h => daemonEq nh.2 h
    | none => false)
  (toStop, toStart, toRestart, toUpdate)

/-- The metadata-update loop over `daemons_to_update`: rewrite
`"restart"`, `"start_priority"` and (`replace_commands`) the admin
commands of the existing handle; the child is untouched. -/
def applyUpdates (fleet : List (String × Handle)) (toUpdate : List (String × Handle)) :
    List (String × Handle) :=
  toUpdate.foldl
    (fun fl nh => updateA fl nh.1 (fun h =>
      { h with
        restart := nh.2.restart
        start_priority := nh.2.start_priority
        admin_commands := nh.2.admin_commands }))
    fleet

/-- Insertion sort by a boolean "less or equal", modelling Python's
`sorted`. -/
def insertSorted {α : Type} (le : α → α → Bool) (x : α) : List α → List α
  | [] => [x]
  | y :: ys => if le x y then x :: y :: ys else y :: insertSorted le x ys

def sortByB {α : Type} (le : α → α → Bool) (l : List α) : List α :=
  l.foldr (insertSorted le) []

/-- Lexicographic character comparison, modelling Python 2's
byte-wise string comparison. -/
def strLtB : List Char → List Char → Bool
  | [], [] => false
  | [], _ :: _ => true
  | _ :: _, [] => false
  | a :: as, b :: bs =>
      if a.toNat < b.toNat then true
      else if b.toNat < a.toNat then false
      else strLtB as bs

/-- String comparison of daemon names (`sorted(daemons_to_stop)`). -/
def strLe (a b : String) : Bool := a = b || strLtB a.data b.data

/-- `priority_cmp` from `reload()`: order handles by
`(start_priority, name)`. -/
def prioLe (a b : String × Handle) : Bool :=
  decide (a.2.start_priority < b.2.start_priority) ||
    (decide (a.2.start_priority = b.2.start_priority) && strLe a.2.name b.2.name)

/-- One iteration of the stop loop for outgoing daemons:
`restart_queue.remove(name)` (see `rqRemove` and its leaked-variable
bug), `_stop`, and `del self.daemons[name]`. -/
def stopOne (leaked : String) (st : CState) (name : String) :
    Option (CState × List Ev) :=
  match rqRemove leaked st.queue name with
  | none => none
  | some q1 =>
      match doStop { st with queue := q1 } name with
      | none => none
      | some (st', ev) => some ({ st' with fleet := eraseA st'.fleet name }, ev)

/-- One iteration of the `daemons_to_restart` loop: stop the current
instance, install the new handle, start it. -/
def restartOne (now : Int) (st : CState) (nh : String × Handle) :
    Option (CState × List Ev) :=
  match doStop st nh.1 with
  | none => none
  | some (st1, e1) =>
      let st2 := { st1 with fleet := insertA st1.fleet nh.1 nh.2 }
      match doStart st2 nh.1 now with
      | none => none
      | some (st3, e2) => some (st3, e1 ++ e2)

/-- One iteration of the `daemons_to_start` loop: install the handle
and start it. -/
def startOne (now : Int) (st : CState) (nh : String × Handle) :
    Option (CState × List Ev) :=
  let st1 := { st with fleet := insertA st.fleet nh.1 nh.2 }
  doStart st1 nh.1 now

/-- One iteration of the recovery loop (`for handle in
self.daemons.values(): if not handle["running"]: ...`); `nh` ranges
over the snapshot of the fleet at the start of the loop, but
`handle` is the shared mutable object, so the current fleet entry is
consulted. -/
def recoverOne (now : Int) (st : CState) (nh : String × Handle) :
    Option (CState × List Ev) :=
  let h := (lookupA st.fleet nh.1).getD nh.2
  if h.running then some (st, [])
  else
    let st1 := { st with fleet := insertA st.fleet nh.1 h }
    doStart st1 nh.1 now

/-- Run the iterations of one loop of `reload()`, concatenating the
emitted child events. -/
def runPhase {α : Type} (f : CState → α → Option (CState × List Ev)) :
    CState → List α → Option (CState × List Ev)
  | st, [] => some (st, [])
  | st, x :: xs =>
      match f st x with
      | none => none
      | some (st1, e1) =>
          match runPhase f st1 xs with
          | none => none
          | some (st2, e2) => some (st2, e1 ++ e2)

/-- The restart-queue rebuild of `reload()`: clear, then register the
strategies of `daemons_to_start`, of every current daemon, and of
`daemons_to_restart` (later registrations win). -/
def rqRebuild (toStart : List (String × Handle)) (fleet : List (String × Handle))
    (toRestart : List (String × Handle)) : RestartQueue :=
  let q0 := toStart.foldl (fun q nh => rqAdd q nh.1 nh.2.restart) rqClear
  let q1 := fleet.foldl (fun q nh => rqAdd q nh.1 nh.2.restart) q0
  toRestart.foldl (fun q nh => rqAdd q nh.1 nh.2.restart) q1

/-- `Controller.reload()` after a successful `load_config`: classify,
update metadata in place, stop outgoing daemons in name order,
rebuild the restart queue, then run the restart, start and recovery
loops.  Returns the sequence of child stop/start events and the new
controller state (`none` models an uncaught exception).  The
`time.sleep(0.1)` delays between priority bands have no observable
effect in this embedding and are not modelled. -/
def reload (st : CState) (specs : List (String × DSpec)) (leaked : String)
    (now : Int) : Option (List Ev × CState) :=
  let c := classify st.fleet specs
  let toStop := c.1
  let toStart := c.2.1
  let toRestart := c.2.2.1
  let toUpdate := c.2.2.2
  let st0 := { st with fleet := applyUpdates st.fleet toUpdate }
  match runPhase (stopOne leaked) st0 (sortByB strLe toStop) with
  | none => none
  | some (st1, ev1) =>
      let st1q := { st1 with queue := rqRebuild toStart st1.fleet toRestart }
      match runPhase (restartOne now) st1q (sortByB prioLe toRestart) with
      | none => none
      | some (st2, ev2) =>
          match runPhase (startOne now) st2 (sortByB prioLe toStart) with
          | none => none
          | some (st3, ev3) =>
              match runPhase (recoverOne now) st3 st3.fleet with
              | none => none
              | some (st4, ev4) => some (ev1 ++ ev2 ++ ev3 ++ ev4, st4)

/-! ## Control channel (`control_socket.py` and
`Controller.handle_command` / `Controller.command_*`) -/

/-- An entry of the `ps` result. -/
structure PsEntry where
  daemon : String
  pid : Option Nat
  running : Bool
  restart_at : Option Int
deriving DecidableEq

/-- A response sent on the control channel. -/
inductive Resp
  | ok
  | okResult (r : List PsEntry)
  | err (msg : String)
deriving DecidableEq

def Resp.isError : Resp → Bool
  | Resp.err _ => true
  | _ => false

/-- A decoded request: `command` is `none` when the `"command"` key is
missing or not a string; `daemon` / `admin_command` likewise model the
optional string fields. -/
structure Req where
  command : Option String
  daemon : Option String
  admin_command : Option String

/-- What arrives on a client connection, one line at a time:
connection closed, a line that is not valid JSON, a JSON value that is
not an object, or a JSON object decoded into a `Req`.  (Parsing
itself is Python's `json` library, an external collaborator.) -/
inductive Wire
  | closed
  | invalidJson
  | nonDictJson
  | dict (r : Req)

/-- The EOF sentinel of `filehandle.EOF`. -/
inductive ReadOut
  | eof
  | req (r : Req)

/-- `ControlSocketClient.read`: a closed connection, a JSON parse
error or a non-dict JSON value all yield `EOF` (the latter two with a
`TODO: report a protocol error` in the source). -/
def clientRead : Wire → ReadOut
  | Wire.closed => ReadOut.eof
  | Wire.invalidJson => ReadOut.eof
  | Wire.nonDictJson => ReadOut.eof
  | Wire.dict r => ReadOut.req r

/-- The commands for which a `command_<name>` method exists on
`Controller`. -/
def knownCommands : List String :=
  ["start", "stop", "restart", "cancel_restart", "ps", "reload", "admin_command"]

/-- `Controller.command_ps`. -/
def command_ps (st : CState) : List PsEntry :=
  -- `dict([...])`: a later entry for the same name wins
  let restarts := (list_restarts st.queue).foldl
    (fun m e => insertA m e.2 e.1) []
  (sortByB strLe (st.fleet.map (·.1))).map (fun name =>
    let pid := (lookupA st.fleet name).bind (·.child_pid)
    { daemon := name
      pid := pid
      running := pid.isSome
      restart_at := lookupA restarts name })

/-- `Controller.command_start`.  Returning `(none, st)` models the
bare `return` (no result); note the `TODO: signal error` comments in
the source: an unknown daemon produces no error. -/
def command_start (st : CState) (now : Int) (req : Req) :
    Option (Option (List PsEntry) × CState) :=
  match req.daemon with
  | none => some (none, st)
  | some name =>
      match lookupA st.fleet name with
      | none => some (none, st)
      | some h =>
          let r : Option CState :=
            if h.running then some st
            else (doStart st name now).map (·.1)
          match r with
          | none => none
          | some st' =>
              some (none, { st' with queue := cancel_restart st'.queue name })

/-- `Controller.command_stop`. -/
def command_stop (st : CState) (req : Req) :
    Option (Option (List PsEntry) × CState) :=
  match req.daemon with
  | none => some (none, st)
  | some name =>
      match lookupA st.fleet name with
      | none => some (none, st)
      | some h =>
          let r : Option CState :=
            if h.running then (doStop st name).map (·.1)
            else some st
          match r with
          | none => none
          | some st' =>
              some (none, { st' with queue := cancel_restart st'.queue name })

/-- `Controller.command_restart`. -/
def command_restart (st : CState) (now : Int) (req : Req) :
    Option (Option (List PsEntry) × CState) :=
  match req.daemon with
  | none => some (none, st)
  | some name =>
      match lookupA st.fleet name with
      | none => some (none, st)
      | some h =>
          let r : Option CState :=
            if h.running then
              match doStop st name with
              | none => none
              | some (st1, _) => (doStart st1 name now).map (·.1)
            else (doStart st name now).map (·.1)
          match r with
          | none => none
          | some st' =>
              some (none, { st' with queue := cancel_restart st'.queue name })

/-- `Controller.command_cancel_restart`. -/
def command_cancel_restart (st : CState) (req : Req) :
    Option (Option (List PsEntry) × CState) :=
  match req.daemon with
  | none => some (none, st)
  | some name =>
      match lookupA st.fleet name with
      | none => some (none, st)
      | some _ => some (none, { st with queue := cancel_restart st.queue name })

/-- `Controller.command_admin_command`: an unknown daemon or an
unknown admin command both `return` without a result (`TODO: signal
error`); running the command itself does not change the controller
state. -/
def command_admin_command (st : CState) (req : Req) :
    Option (Option (List PsEntry) × CState) :=
  match req.daemon with
  | none => some (none, st)
  | some name =>
      match req.admin_command with
      | none => some (none, st)
      | some cmd =>
          match lookupA st.fleet name with
          | none => some (none, st)
          | some h =>
              if (lookupA h.admin_commands cmd).isSome then some (none, st)
              else some (none, st)

/-- `Controller.command_reload`: runs `reload()`, ignoring its
result. -/
def command_reload (st : CState) (specs : List (String × DSpec)) (leaked : String)
    (now : Int) : Option (Option (List PsEntry) × CState) :=
  match reload st specs leaked now with
  | none => none
  | some (_, st') => some (none, st')

/-- The `method(**command)` dispatch of `handle_command`.  `none`
models an exception escaping the method (caught by the
bare `except` of `handle_command`). -/
def runCommand (c : String) (st : CState) (specs : List (String × DSpec))
    (leaked : String) (now : Int) (req : Req) :
    Option (Option (List PsEntry) × CState) :=
  if c = "start" then command_start st now req
  else if c = "stop" then command_stop st req
  else if c = "restart" then command_restart st now req
  else if c = "cancel_restart" then command_cancel_restart st req
  else if c = "ps" then some (some (command_ps st), st)
  else if c = "reload" then command_reload st specs leaked now
  else if c = "admin_command" then command_admin_command st req
  else none

/-- What `handle_command` does with one decoded request. -/
inductive HCOut
  | noResp
  | resp (r : Resp)
deriving DecidableEq

/-- `Controller.handle_command`: a missing or non-string `"command"`
key is only logged (no response); an unimplemented command gets an
error response; an exception in the method gets no response; otherwise
`{"status": "ok"}` with the optional result. -/
def handle_command (st : CState) (specs : List (String × DSpec)) (leaked : String)
    (now : Int) (req : Req) : HCOut × CState :=
  match req.command with
  | none => (HCOut.noResp, st)
  | some c =>
      if c ∈ knownCommands then
        match runCommand c st specs leaked now req with
        | none => (HCOut.noResp, st)
        | some (none, st') => (HCOut.resp Resp.ok, st')
        | some (some r, st') => (HCOut.resp (Resp.okResult r), st')
      else (HCOut.resp (Resp.err "command not implemented"), st)

/-- What one ready control-client delivers to the event loop
(`Controller.loop`): on `EOF` the client is unregistered and closed;
otherwise the request is dispatched. -/
structure StepOut where
  connOpen : Bool
  sent : List Resp
  state : CState
deriving DecidableEq

def loopClientStep (st : CState) (specs : List (String × DSpec)) (leaked : String)
    (now : Int) (w : Wire) : StepOut :=
  match clientRead w with
  | ReadOut.eof => { connOpen := false, sent := [], state := st }
  | ReadOut.req r =>
      match handle_command st specs leaked now r with
      | (HCOut.noResp, st') => { connOpen := true, sent := [], state := st' }
      | (HCOut.resp resp, st') => { connOpen := true, sent := [resp], state := st' }

/-! ## Scenario: a registered daemon dying immediately after each
restart (the "quick deaths" of the back-off monotonicity claim) -/

/-- The index advance of `daemon_died`: move to the next back-off
entry unless already at the end of the strategy. -/
def advPos (bl : List Int) (p : Nat) : Nat :=
  if p + 1 < bl.length then p + 1 else p

/-- The back-off reset condition of `daemon_died`: the daemon had been
running longer than 10 seconds and longer than twice the current
(floored) back-off. -/
def resetCond (rt : Option Int) (now rb1 : Int) : Prop :=
  match rt with
  | some t0 => now - t0 > 10 ∧ now - t0 > 2 * rb1
  | none => False

instance (rt : Option Int) (now rb1 : Int) : Decidable (resetCond rt now rb1) := by
  unfold resetCond
  match rt with
  | some t0 => exact instDecidableAnd
  | none => exact instDecidableFalse

/-- Simulate `k` rounds of: the daemon is started at time `t`
(`daemon_started`), dies immediately (`daemon_died` at the same
time), and the event loop restarts it exactly at its scheduled
wake-time.  Returns the list of scheduled wake-times. -/
def quickWakesGo (name : String) : Nat → RestartQueue → Int → Option (List Int)
  | 0, _, _ => some []
  | Nat.succ k, q, t =>
      let q1 := daemon_started q name t
      match daemon_died q1 name t with
      | none => none
      | some q2 =>
          match q2.restart_queue with
          | [(w, some _)] =>
              match quickWakesGo name k { q2 with restart_queue := [] } w with
              | none => none
              | some rest => some (w :: rest)
          | _ => none

/-- The quick-deaths scenario started from a freshly registered
daemon. -/
def quickWakes (name : String) (bl : List Int) (t0 : Int) (k : Nat) :
    Option (List Int) :=
  quickWakesGo name k (rqAdd rqEmpty name bl) t0

/-- The wake-time sequence the claim describes: each wake is the
previous one plus `max 1 (backoff[i])`, the index advancing by one
unless already at the end of the strategy. -/
def wakeSeq (bl : List Int) : Nat → Nat → Int → List Int
  | _, 0, _ => []
  | p, Nat.succ k, t =>
      let w := t + max 1 (bl.getD p 0)
      w :: wakeSeq bl (advPos bl p) k w

/-- Differences of successive elements. -/
def deltas : List Int → List Int
  | a :: b :: rest => (b - a) :: deltas (b :: rest)
  | _ => []

/-- The claimed value of each wake-time delta: `max 1 (backoff[i])`
along the advancing index. -/
def mseq (bl : List Int) : Nat → Nat → List Int
  | _, 0 => []
  | p, Nat.succ k => max 1 (bl.getD p 0) :: mseq bl (advPos bl p) k

/-! ## Arbitrary restart-queue histories (for the cancellation claim) -/

/-- One public operation on a `RestartQueue`. -/
inductive QOp
  | qadd (name : String) (bl : List Int)
  | qremove (leaked name : String)
  | qstarted (name : String) (now : Int)
  | qstopped (name : String)
  | qdied (name : String) (now : Int)
  | qcancel (name : String)
  | qready (now : Int)
  | qclear
deriving DecidableEq

/-- Apply one operation; `qready` also yields the daemons handed to
the event loop for restarting. -/
def qstep (q : RestartQueue) : QOp → Option (RestartQueue × List String)
  | QOp.qadd n bl => some (rqAdd q n bl, [])
  | QOp.qremove lk n => (rqRemove lk q n).map (fun q' => (q', []))
  | QOp.qstarted n t => some (daemon_started q n t, [])
  | QOp.qstopped n => some (daemon_stopped q n, [])
  | QOp.qdied n t => (daemon_died q n t).map (fun q' => (q', []))
  | QOp.qcancel n => some (cancel_restart q n, [])
  | QOp.qready t =>
      let r := get_restart_ready q t
      some (r.2, r.1)
  | QOp.qclear => some (rqClear, [])

/-- Run a history of operations, collecting every daemon name
`get_restart_ready` ever returned. -/
def runOps (q : RestartQueue) : List QOp → Option (RestartQueue × List String)
  | [] => some (q, [])
  | op :: ops =>
      match qstep q op with
      | none => none
      | some (q1, out1) =>
          match runOps q1 ops with
          | none => none
          | some (q2, out2) => some (q2, out1 ++ out2)

/-- "No pending heap entry for `name`". -/
def noPending (q : RestartQueue) (name : String) : Prop :=
  ∀ t : Int, (t, some name) ∉ q.restart_queue

/-! ## General lemmas -/

theorem lookupA_eq_none_iff {α : Type} (m : List (String × α)) (k : String) :
    lookupA m k = none ↔ ∀ e ∈ m, e.1 ≠ k := by
  induction m with
  | nil => simp [lookupA]
  | cons hd t ih =>
      by_cases h : hd.1 = k
      · simp [lookupA, h]
      · simp [lookupA, h, ih]

theorem lookupA_mem {α : Type} {m : List (String × α)} {k : String} {v : α}
    (h : lookupA m k = some v) : (k, v) ∈ m := by
  induction m with
  | nil => simp [lookupA] at h
  | cons hd t ih =>
      by_cases hh : hd.1 = k
      · simp only [lookupA, if_pos hh] at h
        cases h
        have : hd = (k, hd.2) := by
          cases hd
          simp_all
        rw [← this]
        exact List.mem_cons_self _ _
      · simp only [lookupA, if_neg hh] at h
        exact List.mem_cons_of_mem _ (ih h)

theorem lookupA_foldl_insertA_not_mem {α β : Type} (f : String × α → β)
    (l : List (String × α)) (k : String) (h : ∀ e ∈ l, e.1 ≠ k) :
    ∀ m0 : List (String × β),
      lookupA (l.foldl (fun m nc => insertA m nc.1 (f nc)) m0) k = lookupA m0 k := by
  induction l with
  | nil => intro m0; rfl
  | cons hd t ih =>
      intro m0
      have hhd : hd.1 ≠ k := h hd (List.mem_cons_self _ _)
      have ht : ∀ e ∈ t, e.1 ≠ k := fun e he => h e (List.mem_cons_of_mem _ he)
      simp only [List.foldl_cons]
      rw [ih ht, lookupA_insertA_ne _ _ _ _ hhd]

theorem getD_eq_of_get? (l : List Int) (n : Nat) (v d : Int) (h : l.get? n = some v) :
    l.getD n d = v := by
  simp [List.getD, List.get?_eq_getElem?] at h ⊢
  simp [h]

theorem floor1_eq_max (x : Int) : floor1 x = max 1 x := by
  unfold floor1
  rcases le_or_lt 1 x with h | h
  · rw [if_neg (not_lt.mpr h), max_eq_right h]
  · rw [if_pos h, max_eq_left h.le]

theorem dd_reset_iff (rt : Option Int) (now rb1 : Int) :
    dd_reset rt now rb1 = true ↔ resetCond rt now rb1 := by
  cases rt with
  | none => simp [dd_reset, resetCond]
  | some t0 => simp [dd_reset, resetCond]

/-- `daemon_died` when the reset condition fails: schedule at
`now + max 1 (backoff[pos])` and advance the index unless at the end
of the strategy. -/
theorem daemon_died_no_reset
    (q : RestartQueue) (name : String) (now : Int) (bl : List Int) (pos : Nat)
    (rt : Option Int)
    (hbl : lookupA q.backoff name = some bl)
    (hpos : lookupA q.backoff_pos name = some pos)
    (hrt : lookupA q.restart_time name = some rt)
    (hlen : pos < bl.length)
    (hnr : ¬ resetCond rt now (max 1 (bl.getD pos 0))) :
    daemon_died q name now =
      some { q with
        backoff_pos := insertA q.backoff_pos name (advPos bl pos)
        restart_queue := heappush q.restart_queue
          (now + max 1 (bl.getD pos 0), some name) } := by
  have hget : bl.get? pos = some (bl.get ⟨pos, hlen⟩) := List.get?_eq_get hlen
  have hgd : bl.getD pos 0 = bl.get ⟨pos, hlen⟩ := getD_eq_of_get? _ _ _ _ hget
  have hdr : dd_reset rt now (floor1 (bl.get ⟨pos, hlen⟩)) = false := by
    rw [Bool.eq_false_iff]
    intro h
    rw [floor1_eq_max, ← hgd] at h
    exact hnr ((dd_reset_iff _ _ _).mp h)
  simp only [daemon_died, hbl, hpos, hrt, hget, hdr, Bool.false_eq_true, if_false]
  rw [floor1_eq_max, ← hgd]
  rfl

/-- `daemon_died` when the reset condition holds: the index is reset
(then advanced by the normal step) and the schedule is
`now + backoff[0]`, with no floor applied to `backoff[0]`. -/
theorem daemon_died_reset
    (q : RestartQueue) (name : String) (now : Int) (bl : List Int) (pos : Nat)
    (t0 b0 : Int)
    (hbl : lookupA q.backoff name = some bl)
    (hpos : lookupA q.backoff_pos name = some pos)
    (hrt : lookupA q.restart_time name = some (some t0))
    (hlen : pos < bl.length)
    (hb0 : bl.get? 0 = some b0)
    (h10 : now - t0 > 10)
    (h2 : now - t0 > 2 * max 1 (bl.getD pos 0)) :
    daemon_died q name now =
      some { q with
        backoff_pos := insertA q.backoff_pos name (if 1 < bl.length then 1 else 0)
        restart_queue := heappush q.restart_queue (now + b0, some name) } := by
  have hget : bl.get? pos = some (bl.get ⟨pos, hlen⟩) := List.get?_eq_get hlen
  have hgd : bl.getD pos 0 = bl.get ⟨pos, hlen⟩ := getD_eq_of_get? _ _ _ _ hget
  have hdr : dd_reset (some t0) now (floor1 (bl.get ⟨pos, hlen⟩)) = true := by
    rw [floor1_eq_max, ← hgd, dd_reset_iff]
    exact ⟨h10, h2⟩
  simp only [daemon_died, hbl, hpos, hrt, hget, hdr, if_true, hb0]

/-- The canonical queue state of a single registered daemon with an
empty pending heap. -/
def singleQ (name : String) (bl : List Int) (p : Nat) (rt : Option Int) : RestartQueue :=
  ⟨[], [(name, bl)], [(name, p)], [(name, rt)]⟩

theorem advPos_lt {bl : List Int} {p : Nat} (hp : p < bl.length) :
    advPos bl p < bl.length := by
  unfold advPos
  split <;> omega

theorem quickWakesGo_singleQ (name : String) (bl : List Int) :
    ∀ (k p : Nat) (rt : Option Int) (t : Int), p < bl.length →
      quickWakesGo name k (singleQ name bl p rt) t = some (wakeSeq bl p k t) := by
  intro k
  induction k with
  | zero => intro p rt t _; rfl
  | succ k ih =>
      intro p rt t hp
      have hstart : daemon_started (singleQ name bl p rt) name t =
          singleQ name bl p (some t) := by
        simp [daemon_started, singleQ, lookupA, insertA]
      have hdied : daemon_died (singleQ name bl p (some t)) name t =
          some ⟨[(t + max 1 (bl.getD p 0), some name)], [(name, bl)],
                [(name, advPos bl p)], [(name, some t)]⟩ := by
        rw [daemon_died_no_reset (singleQ name bl p (some t)) name t bl p (some t)
            (by simp [singleQ, lookupA]) (by simp [singleQ, lookupA])
            (by simp [singleQ, lookupA]) hp
            (by intro hr; rcases hr with ⟨h1, _⟩; omega)]
        simp [singleQ, insertA, heappush]
      simp only [quickWakesGo, hstart, hdied]
      rw [show (quickWakesGo name k
            ⟨[], [(name, bl)], [(name, advPos bl p)], [(name, some t)]⟩
            (t + max 1 (bl.getD p 0))) =
          quickWakesGo name k (singleQ name bl (advPos bl p) (some t))
            (t + max 1 (bl.getD p 0)) from rfl]
      rw [ih (advPos bl p) (some t) (t + max 1 (bl.getD p 0)) (advPos_lt hp)]
      rfl

theorem deltas_wakeSeq (bl : List Int) :
    ∀ (k p : Nat) (t : Int),
      deltas (wakeSeq bl p (k + 1) t) = mseq bl (advPos bl p) k := by
  intro k
  induction k with
  | zero => intro p t; rfl
  | succ k ih =>
      intro p t
      rw [show wakeSeq bl p (k + 2) t =
          (t + max 1 (bl.getD p 0)) ::
            wakeSeq bl (advPos bl p) (k + 1) (t + max 1 (bl.getD p 0)) from rfl]
      rw [show wakeSeq bl (advPos bl p) (k + 1) (t + max 1 (bl.getD p 0)) =
          ((t + max 1 (bl.getD p 0)) + max 1 (bl.getD (advPos bl p) 0)) ::
            wakeSeq bl (advPos bl (advPos bl p)) k
              ((t + max 1 (bl.getD p 0)) + max 1 (bl.getD (advPos bl p) 0)) from rfl]
      simp only [deltas]
      rw [show mseq bl (advPos bl p) (k + 1) =
          max 1 (bl.getD (advPos bl p) 0) ::
            mseq bl (advPos bl (advPos bl p)) k from rfl]
      congr 1
      · omega
      · have := ih (advPos bl p) (t + max 1 (bl.getD p 0))
        rw [show wakeSeq bl (advPos bl p) (k + 1) (t + max 1 (bl.getD p 0)) =
            ((t + max 1 (bl.getD p 0)) + max 1 (bl.getD (advPos bl p) 0)) ::
              wakeSeq bl (advPos bl (advPos bl p)) k
                ((t + max 1 (bl.getD p 0)) + max 1 (bl.getD (advPos bl p) 0)) from rfl]
          at this
        exact this

theorem chain'_mseq (bl : List Int) (hbl : List.Chain' (· ≤ ·) bl) :
    ∀ (k p : Nat), p < bl.length → List.Chain' (· ≤ ·) (mseq bl p k) := by
  intro k
  induction k with
  | zero => intro p _; simp [mseq]
  | succ k ih =>
      intro p hp
      rw [show mseq bl p (k + 1) =
          max 1 (bl.getD p 0) :: mseq bl (advPos bl p) k from rfl]
      rw [List.chain'_cons']
      constructor
      · intro h hh
        cases k with
        | zero => simp [mseq] at hh
        | succ k' =>
            rw [show mseq bl (advPos bl p) (k' + 1) =
                max 1 (bl.getD (advPos bl p) 0) ::
                  mseq bl (advPos bl (advPos bl p)) k' from rfl] at hh
            simp only [List.head?_cons, Option.mem_def, Option.some.injEq] at hh
            subst hh
            apply max_le_max le_rfl
            unfold advPos
            by_cases hadv : p + 1 < bl.length
            · rw [if_pos hadv]
              have h1 : bl.getD p 0 = bl.get ⟨p, hp⟩ :=
                getD_eq_of_get? _ _ _ _ (List.get?_eq_get hp)
              have h2 : bl.getD (p + 1) 0 = bl.get ⟨p + 1, hadv⟩ :=
                getD_eq_of_get? _ _ _ _ (List.get?_eq_get hadv)
              rw [h1, h2]
              rw [List.chain'_iff_get] at hbl
              exact hbl p (by omega)
            · rw [if_neg hadv]
      · exact ih (advPos bl p) (advPos_lt hp)

/-! ## Claim C1 -/

/-- C1 (amended): when the back-off reset condition does not hold,
`daemon_died` schedules the restart at `now + max 1 (backoff[i])` and
advances the index unless it already points at the last element; over
a sequence of quick deaths the wake-time delta of successive restarts
equals `max 1 (backoff[i])` along the advancing index, and those
deltas are non-decreasing provided the back-off strategy itself is
non-decreasing (for a strategy that is not sorted, such as
`[0, 5, 1]`, the deltas do decrease — see the counterexample). -/
theorem claim_C1_backoff_schedule :
    (∀ (q : RestartQueue) (name : String) (now : Int) (bl : List Int) (pos : Nat)
        (rt : Option Int),
      lookupA q.backoff name = some bl →
      lookupA q.backoff_pos name = some pos →
      lookupA q.restart_time name = some rt →
      pos < bl.length →
      ¬ resetCond rt now (max 1 (bl.getD pos 0)) →
      daemon_died q name now =
        some { q with
          backoff_pos := insertA q.backoff_pos name (advPos bl pos)
          restart_queue := heappush q.restart_queue
            (now + max 1 (bl.getD pos 0), some name) }) ∧
    (∀ (name : String) (bl : List Int) (t0 : Int) (k : Nat), bl ≠ [] →
      quickWakes name bl t0 k = some (wakeSeq bl 0 k t0) ∧
      deltas (wakeSeq bl 0 k t0) = mseq bl (advPos bl 0) (k - 1) ∧
      (List.Chain' (· ≤ ·) bl →
        List.Chain' (· ≤ ·) (deltas (wakeSeq bl 0 k t0)))) := by
  constructor
  · intro q name now bl pos rt hbl hpos hrt hlen hnr
    exact daemon_died_no_reset q name now bl pos rt hbl hpos hrt hlen hnr
  · intro name bl t0 k hbl
    have hlen0 : 0 < bl.length := List.length_pos.mpr hbl
    have hq : quickWakes name bl t0 k = some (wakeSeq bl 0 k t0) := by
      unfold quickWakes
      rw [show rqAdd rqEmpty name bl = singleQ name bl 0 none from rfl]
      exact quickWakesGo_singleQ name bl k 0 none t0 hlen0
    refine ⟨hq, ?_, ?_⟩
    · cases k with
      | zero => rfl
      | succ k' =>
          rw [show k' + 1 - 1 = k' from rfl]
          exact deltas_wakeSeq bl k' 0 t0
    · intro hchain
      cases k with
      | zero => simp [wakeSeq, deltas]
      | succ k' =>
          rw [deltas_wakeSeq bl k' 0 t0]
          exact chain'_mseq bl hchain k' (advPos bl 0) (advPos_lt hlen0)

/-- Witness for C1 at the default-style strategy `[0, 5]`, three quick
deaths: the wake-times follow the claimed closed form. -/
theorem claim_C1_witness :
    ([0, 5] : List Int) ≠ [] ∧
    quickWakes "d" [0, 5] 0 3 = some (wakeSeq [0, 5] 0 3 0) :=
  ⟨by decide, (claim_C1_backoff_schedule.2 "d" [0, 5] 0 3 (by decide)).1⟩

/-- C1 counterexample: with the registered strategy `[0, 5, 1]` and
three instant deaths, the scheduled wake-times are `[1, 6, 7]`, whose
successive deltas `[5, 1]` are decreasing — the original claim's
"wake-time delta of successive restarts is non-decreasing" fails
(each delta does equal `max 1 (backoff[i])`, which is where the
decrease comes from). -/
theorem claim_C1_counterexample :
    quickWakes "d" [0, 5, 1] 0 3 = some [1, 6, 7] ∧
    deltas [1, 6, 7] = [5, 1] ∧
    ¬ List.Chain' (· ≤ ·) (deltas [1, 6, 7]) := by
  refine ⟨by decide, by decide, ?_⟩
  intro h
  rw [show deltas [1, 6, 7] = [5, 1] from by decide] at h
  rw [List.chain'_cons] at h
  omega

/-! ## Claim C2 -/

/-- C2 (amended): when the reset condition holds (`daemon_started`
recorded a start time, the daemon ran longer than 10 seconds and
longer than twice the current floored back-off), `daemon_died` resets
the back-off index to 0 (the normal advance step then moves it to 1
when the strategy has more than one entry) and schedules the restart
at wake-time `now + backoff[0]` — the first back-off is used as-is,
without flooring it to 1 second. -/
theorem claim_C2_reset_schedule (q : RestartQueue) (name : String) (now : Int)
    (bl : List Int) (pos : Nat) (t0 b0 : Int)
    (hbl : lookupA q.backoff name = some bl)
    (hpos : lookupA q.backoff_pos name = some pos)
    (hrt : lookupA q.restart_time name = some (some t0))
    (hlen : pos < bl.length)
    (hb0 : bl.get? 0 = some b0)
    (h10 : now - t0 > 10)
    (h2 : now - t0 > 2 * max 1 (bl.getD pos 0)) :
    daemon_died q name now =
      some { q with
        backoff_pos := insertA q.backoff_pos name (if 1 < bl.length then 1 else 0)
        restart_queue := heappush q.restart_queue (now + b0, some name) } :=
  daemon_died_reset q name now bl pos t0 b0 hbl hpos hrt hlen hb0 h10 h2

/-- Witness for C2 at a concrete queue: strategy `[0, 5]`, index 1,
started at 0, dying at 11. -/
theorem claim_C2_witness :
    ((11 : Int) - 0 > 10 ∧ (11 : Int) - 0 > 2 * max 1 (([0, 5] : List Int).getD 1 0)) ∧
    daemon_died ⟨[], [("d", [0, 5])], [("d", 1)], [("d", some 0)]⟩ "d" 11 =
      some { (⟨[], [("d", [0, 5])], [("d", 1)], [("d", some 0)]⟩ : RestartQueue) with
        backoff_pos := insertA [("d", 1)] "d"
          (if 1 < ([0, 5] : List Int).length then 1 else 0)
        restart_queue := heappush [] (11 + 0, some "d") } :=
  ⟨⟨by decide, by decide⟩,
    claim_C2_reset_schedule _ "d" 11 [0, 5] 1 0 0 (by decide) (by decide) (by decide)
      (by decide) (by decide) (by decide) (by decide)⟩

/-- C2 counterexample: with strategy `[0, 5]`, index 1, started at 0
and dying at 11 the reset condition holds, yet the scheduled wake-time
is `11 = now + backoff[0] = 11 + 0`, not the claimed
`now + max 1 (backoff[0]) = 12` — `backoff[0]` is not floored after a
reset. -/
theorem claim_C2_counterexample :
    ((11 : Int) - 0 > 10 ∧ (11 : Int) - 0 > 2 * max 1 (([0, 5] : List Int).getD 1 0)) ∧
    daemon_died ⟨[], [("d", [0, 5])], [("d", 1)], [("d", some 0)]⟩ "d" 11 =
      some ⟨[(11, some "d")], [("d", [0, 5])], [("d", 1)], [("d", some 0)]⟩ ∧
    (11 : Int) ≠ 11 + max 1 (([0, 5] : List Int).getD 0 0) := by
  decide

/-! ## Claim C10 -/

/-- C10: calling `daemon_started`, `daemon_stopped`, `daemon_died` or
`cancel_restart` with a daemon name that is not registered in the
restart queue raises no error and leaves the entire queue state
(back-off map, positions, restart times, pending heap) exactly
unchanged. -/
theorem claim_C10_unknown_daemon_noop (q : RestartQueue) (name : String) (now : Int)
    (h : lookupA q.backoff name = none) :
    daemon_started q name now = q ∧ daemon_stopped q name = q ∧
    daemon_died q name now = some q ∧ cancel_restart q name = q := by
  refine ⟨?_, ?_, ?_, ?_⟩ <;>
    simp [daemon_started, daemon_stopped, daemon_died, cancel_restart, h]

/-- Witness for C10 at a concrete queue and an unregistered name. -/
theorem claim_C10_witness :
    lookupA (rqAdd rqEmpty "a" [0, 5]).backoff "x" = none ∧
    (daemon_started (rqAdd rqEmpty "a" [0, 5]) "x" 7 = rqAdd rqEmpty "a" [0, 5] ∧
     daemon_stopped (rqAdd rqEmpty "a" [0, 5]) "x" = rqAdd rqEmpty "a" [0, 5] ∧
     daemon_died (rqAdd rqEmpty "a" [0, 5]) "x" 7 = some (rqAdd rqEmpty "a" [0, 5]) ∧
     cancel_restart (rqAdd rqEmpty "a" [0, 5]) "x" = rqAdd rqEmpty "a" [0, 5]) :=
  ⟨by decide, claim_C10_unknown_daemon_noop _ "x" 7 (by decide)⟩

/-! ## Claim C5 -/

/-- C5: `RestartQueue.remove("d")` on a queue in which `"d"` is
registered leaves the queue completely unchanged — the guard `if name
not in self.backoff` tests the leaked module-level variable `name` (a
signal name such as `"SIGTERM"`) instead of the parameter
`daemon_name`, so the method returns early and the daemon stays
registered, contradicting the method's own docstring ("Unregister
daemon from the queue"). -/
theorem claim_C5_remove_is_noop :
    rqRemove "SIGTERM" (rqAdd rqEmpty "d" [0, 5]) "d" =
      some (rqAdd rqEmpty "d" [0, 5]) ∧
    lookupA (rqAdd rqEmpty "d" [0, 5]).backoff "d" = some [0, 5] ∧
    lookupA (rqAdd rqEmpty "d" [0, 5]).backoff_pos "d" = some 0 ∧
    lookupA (rqAdd rqEmpty "d" [0, 5]).restart_time "d" = some none := by
  decide

/-! ## Claim C9 -/

/-- C9: every built daemon has an admin command named `"stop"`; and
when the specification defines neither a `"stop"` entry under
`commands`, nor `stop_command`, nor `stop_signal`, that command is
the `SIGTERM` signal delivered to the child's process group. -/
theorem claim_C9_default_stop (spec : DSpec) :
    (lookupA (build spec).admin_commands "stop").isSome = true ∧
    (lookupA spec.commands "stop" = none → spec.stop_command = none →
      spec.stop_signal = none →
      lookupA (build spec).admin_commands "stop" = some (Action.sig SIGTERM true)) := by
  constructor
  · show (lookupA (build spec).admin_commands "stop").isSome = true
    unfold build
    set admin0 := spec.commands.foldl
      (fun m nc => insertA m nc.1
        (build_command nc.2 ⟨spec.environment, spec.cwd, spec.user, spec.group⟩ (some "log")))
      [] with hadmin0
    by_cases h : (lookupA admin0 "stop").isSome
    · simp [h]
    · simp only [h]
      cases hsc : spec.stop_command with
      | some sc => simp [hsc, h, lookupA_insertA_self]
      | none =>
          cases hsg : spec.stop_signal with
          | some sg => simp [hsc, hsg, h, lookupA_insertA_self]
          | none => simp [hsc, hsg, h, lookupA_insertA_self]
  · intro hc hsc hsg
    unfold build
    have hnone : lookupA
        (spec.commands.foldl
          (fun m nc => insertA m nc.1
            (build_command nc.2 ⟨spec.environment, spec.cwd, spec.user, spec.group⟩
              (some "log")))
          []) "stop" = none := by
      rw [lookupA_foldl_insertA_not_mem _ _ _ ((lookupA_eq_none_iff _ _).mp hc)]
      rfl
    simp only [hnone, hsc, hsg, Option.isSome_none, Bool.false_eq_true, if_false]
    rw [lookupA_insertA_self]
    rfl

/-- Witness for C9: the empty specification yields the default stop
action `SIGTERM` to the process group. -/
theorem claim_C9_witness :
    lookupA (build emptyDSpec).admin_commands "stop" = some (Action.sig SIGTERM true) :=
  (claim_C9_default_stop emptyDSpec).2 rfl rfl rfl

/-! ## Claim C4 -/

/-- C4 (amended): a request naming an unknown command receives exactly
one response with status `"error"` and the connection survives; but a
line of malformed JSON (or a JSON value that is not an object) is
mapped to `EOF` by `ControlSocketClient.read` and the controller
closes the connection without any response, and a request naming an
unknown daemon, or an unknown admin command of a known daemon, is
answered with a single `{"status": "ok"}` response (not an error) —
the handler methods `return` silently (`TODO: signal error`). -/
theorem claim_C4_control_channel (st : CState) (specs : List (String × DSpec))
    (leaked : String) (now : Int) :
    (∀ (r : Req) (c : String), r.command = some c → c ∉ knownCommands →
      loopClientStep st specs leaked now (Wire.dict r) =
        { connOpen := true, sent := [Resp.err "command not implemented"], state := st }) ∧
    (loopClientStep st specs leaked now Wire.invalidJson =
        { connOpen := false, sent := [], state := st } ∧
     loopClientStep st specs leaked now Wire.nonDictJson =
        { connOpen := false, sent := [], state := st }) ∧
    (∀ (r : Req) (c name : String), r.command = some c →
      c ∈ (["start", "stop", "restart", "cancel_restart", "admin_command"] : List String) →
      r.daemon = some name → lookupA st.fleet name = none →
      loopClientStep st specs leaked now (Wire.dict r) =
        { connOpen := true, sent := [Resp.ok], state := st }) ∧
    (∀ (r : Req) (name cmd : String) (h : Handle),
      r.command = some "admin_command" → r.daemon = some name →
      r.admin_command = some cmd → lookupA st.fleet name = some h →
      lookupA h.admin_commands cmd = none →
      loopClientStep st specs leaked now (Wire.dict r) =
        { connOpen := true, sent := [Resp.ok], state := st }) := by
  refine ⟨?_, ⟨rfl, rfl⟩, ?_, ?_⟩
  · intro r c hc hnk
    have hk : (c ∈ knownCommands) = False := by
      simp [hnk]
    simp [loopClientStep, clientRead, handle_command, hc, hk]
  · intro r c name hc hmem hd hlook
    simp only [List.mem_cons, List.not_mem_nil, or_false] at hmem
    rcases hmem with rfl | rfl | rfl | rfl | rfl
    · simp [loopClientStep, clientRead, handle_command, knownCommands, runCommand,
        command_start, hc, hd, hlook]
    · simp [loopClientStep, clientRead, handle_command, knownCommands, runCommand,
        command_stop, hc, hd, hlook]
    · simp [loopClientStep, clientRead, handle_command, knownCommands, runCommand,
        command_restart, hc, hd, hlook]
    · simp [loopClientStep, clientRead, handle_command, knownCommands, runCommand,
        command_cancel_restart, hc, hd, hlook]
    · simp only [loopClientStep, clientRead, handle_command, knownCommands, runCommand,
        command_admin_command, hc, hd, hlook]
      cases r.admin_command
      · rfl
      · simp [hlook]
  · intro r name cmd h hc hd ha hlook hcmd
    simp [loopClientStep, clientRead, handle_command, knownCommands, runCommand,
      command_admin_command, hc, hd, ha, hlook, hcmd]

/-- Witness for C4 at concrete requests against an empty controller
state. -/
theorem claim_C4_witness :
    loopClientStep ⟨[], rqEmpty, 0⟩ [] "SIGTERM" 0
        (Wire.dict ⟨some "frobnicate", none, none⟩) =
      { connOpen := true, sent := [Resp.err "command not implemented"],
        state := ⟨[], rqEmpty, 0⟩ } ∧
    loopClientStep ⟨[], rqEmpty, 0⟩ [] "SIGTERM" 0
        (Wire.dict ⟨some "start", some "nosuch", none⟩) =
      { connOpen := true, sent := [Resp.ok], state := ⟨[], rqEmpty, 0⟩ } :=
  ⟨(claim_C4_control_channel ⟨[], rqEmpty, 0⟩ [] "SIGTERM" 0).1
      ⟨some "frobnicate", none, none⟩ "frobnicate" rfl (by decide),
    (claim_C4_control_channel ⟨[], rqEmpty, 0⟩ [] "SIGTERM" 0).2.2.1
      ⟨some "start", some "nosuch", none⟩ "start" "nosuch" rfl (by decide) rfl
      (by decide)⟩

/-- C4 counterexample: a `start` request naming an unknown daemon is
answered with `{"status": "ok"}` — a response whose status is not
`"error"` — and a malformed-JSON line makes the controller close the
connection with no response at all; both contradict the original
claim. -/
theorem claim_C4_counterexample :
    (loopClientStep ⟨[], rqEmpty, 0⟩ [] "SIGTERM" 0
        (Wire.dict ⟨some "start", some "nosuch", none⟩)).sent = [Resp.ok] ∧
    Resp.isError Resp.ok = false ∧
    (loopClientStep ⟨[], rqEmpty, 0⟩ [] "SIGTERM" 0
        (Wire.dict ⟨some "start", some "nosuch", none⟩)).connOpen = true ∧
    (loopClientStep ⟨[], rqEmpty, 0⟩ [] "SIGTERM" 0 Wire.invalidJson).sent = [] ∧
    (loopClientStep ⟨[], rqEmpty, 0⟩ [] "SIGTERM" 0 Wire.invalidJson).connOpen = false := by
  decide

/-! ## Claim C8 -/

theorem mem_heappush {l : List (Int × Option String)} {x e : Int × Option String} :
    e ∈ heappush l x ↔ e ∈ l ∨ e = x := by
  induction l with
  | nil => simp [heappush]
  | cons hd t ih =>
      by_cases h : x.1 < hd.1
      · simp only [heappush, if_pos h, List.mem_cons]
        tauto
      · simp only [heappush, if_neg h, List.mem_cons, ih]
        tauto

theorem mem_removeCancelled {l : List (Int × Option String)} {e : Int × Option String}
    (h : e ∈ removeCancelled l) : e ∈ l := by
  induction l with
  | nil => simp [removeCancelled] at h
  | cons hd t ih =>
      match hd with
      | (t', none) =>
          simp only [removeCancelled] at h
          exact List.mem_cons_of_mem _ (ih h)
      | (t', some n) =>
          simpa [removeCancelled] using h

theorem popReady_out_mem {now : Int} :
    ∀ {l : List (Int × Option String)} {d : String},
      d ∈ (popReady now l).1 → ∃ t, (t, some d) ∈ l := by
  intro l
  induction l with
  | nil => intro d h; simp [popReady] at h
  | cons hd t ih =>
      intro d h
      by_cases ht : hd.1 < now
      · rcases hd with ⟨t', n⟩
        simp only [popReady, if_pos ht] at h
        cases n with
        | some d' =>
            simp only [List.mem_cons] at h
            rcases h with rfl | h
            · exact ⟨t', List.mem_cons_self _ _⟩
            · rcases ih h with ⟨tt, htt⟩
              exact ⟨tt, List.mem_cons_of_mem _ htt⟩
        | none =>
            rcases ih h with ⟨tt, htt⟩
            exact ⟨tt, List.mem_cons_of_mem _ htt⟩
      · rcases hd with ⟨t', n⟩
        simp only [popReady, if_neg ht] at h
        simp at h

theorem popReady_rest_mem {now : Int} :
    ∀ {l : List (Int × Option String)} {e : Int × Option String},
      e ∈ (popReady now l).2 → e ∈ l := by
  intro l
  induction l with
  | nil => intro e h; simp [popReady] at h
  | cons hd t ih =>
      intro e h
      by_cases ht : hd.1 < now
      · rcases hd with ⟨t', n⟩
        simp only [popReady, if_pos ht] at h
        cases n with
        | some d' => exact List.mem_cons_of_mem _ (ih h)
        | none => exact List.mem_cons_of_mem _ (ih h)
      · rcases hd with ⟨t', n⟩
        simp only [popReady, if_neg ht] at h
        exact h

/-- After `cancel_restart name` of a registered daemon, no heap entry
carries `name`. -/
theorem cancel_restart_noPending (q : RestartQueue) (name : String)
    (hreg : (lookupA q.backoff name).isSome = true) :
    noPending (cancel_restart q name) name := by
  intro t ht
  rcases Option.isSome_iff_exists.mp hreg with ⟨bl, hl⟩
  unfold cancel_restart at ht
  rw [hl] at ht
  simp only [] at ht
  have ht' := mem_removeCancelled ht
  rcases List.mem_map.mp ht' with ⟨e, _, heq⟩
  by_cases he : e.2 = some name
  · rw [if_pos he] at heq
    cases heq
  · rw [if_neg he] at heq
    subst heq
    exact he rfl

/-- `cancel_restart` for any daemon (even another one) never
introduces a pending entry for `name`. -/
theorem cancel_restart_preserves_noPending (q : RestartQueue) (name n : String)
    (hnp : noPending q name) : noPending (cancel_restart q n) name := by
  intro t ht
  unfold cancel_restart at ht
  cases hl : lookupA q.backoff n with
  | none =>
      rw [hl] at ht
      exact hnp t ht
  | some bl =>
      rw [hl] at ht
      simp only [] at ht
      have ht' := mem_removeCancelled ht
      rcases List.mem_map.mp ht' with ⟨e, hmem, heq⟩
      by_cases he : e.2 = some n
      · rw [if_pos he] at heq
        cases heq
      · rw [if_neg he] at heq
        subst heq
        exact hnp t hmem

/-- Any entry of the queue after `daemon_died n` was already present
or carries the daemon `n` that just died. -/
theorem daemon_died_queue_mem {q q' : RestartQueue} {n : String} {now : Int}
    (h : daemon_died q n now = some q') {e : Int × Option String}
    (he : e ∈ q'.restart_queue) :
    e ∈ q.restart_queue ∨ ∃ t', e = (t', some n) := by
  unfold daemon_died at h
  split at h
  · cases h
    exact Or.inl he
  · split at h
    · split at h
      · cases h
      · split at h
        · split at h
          · cases h
          · cases h
            rcases mem_heappush.mp he with h' | h'
            · exact Or.inl h'
            · exact Or.inr ⟨_, h'⟩
        · cases h
          rcases mem_heappush.mp he with h' | h'
          · exact Or.inl h'
          · exact Or.inr ⟨_, h'⟩
    · cases h

/-- Every queue operation that is not a death report for `name`
preserves the absence of pending entries for `name` and never hands
`name` to the event loop. -/
theorem qstep_preserves_noPending (q : RestartQueue) (name : String) (op : QOp)
    (hop : ∀ t : Int, op ≠ QOp.qdied name t)
    (hnp : noPending q name) :
    ∀ q' out, qstep q op = some (q', out) →
      noPending q' name ∧ name ∉ out := by
  intro q' out hstep
  cases op with
  | qadd n bl =>
      cases hstep
      exact ⟨hnp, by simp⟩
  | qremove lk n =>
      simp only [qstep, Option.map_eq_some'] at hstep
      rcases hstep with ⟨q'', hq'', heq⟩
      cases heq
      refine ⟨?_, by simp⟩
      unfold rqRemove at hq''
      simp only [] at hq''
      split at hq''
      · cases hq''
        exact hnp
      · split at hq''
        · cases hq''
          intro t ht
          exact cancel_restart_preserves_noPending q name n hnp t ht
        · cases hq''
  | qstarted n t =>
      cases hstep
      refine ⟨?_, by simp⟩
      intro tt htt
      unfold daemon_started at htt
      split at htt
      · exact hnp tt htt
      · exact hnp tt htt
  | qstopped n =>
      cases hstep
      refine ⟨?_, by simp⟩
      intro tt htt
      unfold daemon_stopped at htt
      split at htt
      · exact hnp tt htt
      · exact hnp tt htt
  | qdied n t =>
      simp only [qstep, Option.map_eq_some'] at hstep
      rcases hstep with ⟨q'', hq'', heq⟩
      cases heq
      have hne : n ≠ name := by
        intro he
        exact hop t (by rw [he])
      refine ⟨?_, by simp⟩
      intro tt htt
      rcases daemon_died_queue_mem hq'' htt with h' | ⟨t', h'⟩
      · exact hnp tt h'
      · cases h'
        exact hne rfl
  | qcancel n =>
      cases hstep
      exact ⟨cancel_restart_preserves_noPending q name n hnp, by simp⟩
  | qready t =>
      cases hstep
      constructor
      · intro tt htt
        have h1 := mem_removeCancelled htt
        have h2 := popReady_rest_mem h1
        exact hnp tt h2
      · intro hmem
        rcases popReady_out_mem hmem with ⟨tt, htt⟩
        exact hnp tt htt
  | qclear =>
      cases hstep
      exact ⟨by intro t ht; simp [rqClear, rqEmpty] at ht, by simp⟩

/-- Over any operation history with no new death report for `name`,
the cancelled daemon stays out of the heap and is never returned by
`get_restart_ready`. -/
theorem runOps_noPending (name : String) :
    ∀ (ops : List QOp) (q : RestartQueue),
      (∀ t : Int, QOp.qdied name t ∉ ops) → noPending q name →
      ∀ q' outs, runOps q ops = some (q', outs) →
        noPending q' name ∧ name ∉ outs := by
  intro ops
  induction ops with
  | nil =>
      intro q _ hnp q' outs h
      cases h
      exact ⟨hnp, by simp⟩
  | cons op rest ih =>
      intro q hops hnp q' outs h
      unfold runOps at h
      cases hstep : qstep q op with
      | none => rw [hstep] at h; cases h
      | some pr =>
          rw [hstep] at h
          rcases pr with ⟨q1, out1⟩
          simp only [] at h
          cases hrun : runOps q1 rest with
          | none => rw [hrun] at h; cases h
          | some pr2 =>
              rw [hrun] at h
              rcases pr2 with ⟨q2, out2⟩
              simp only [Option.some.injEq, Prod.mk.injEq] at h
              rcases h with ⟨rfl, rfl⟩
              have hop1 : ∀ t : Int, op ≠ QOp.qdied name t := fun t heq =>
                hops t (heq ▸ List.mem_cons_self _ _)
              have h1 := qstep_preserves_noPending q name op hop1 hnp q1 out1 hstep
              have hrest : ∀ t : Int, QOp.qdied name t ∉ rest :=
                fun t ht => hops t (List.mem_cons_of_mem _ ht)
              have h2 := ih q1 hrest h1.1 q2 out2 hrun
              refine ⟨h2.1, ?_⟩
              simp only [List.mem_append]
              rintro (hm | hm)
              · exact h1.2 hm
              · exact h2.2 hm

/-- C8: for a registered daemon, `cancel_restart` resets its back-off
position and restart time and tombstones every pending heap entry for
it; afterwards, over any sequence of queue operations that contains no
new `daemon_died` report for that daemon, `get_restart_ready` never
returns the daemon's name — so the event loop never starts it. -/
theorem claim_C8_cancel_no_fire (q : RestartQueue) (name : String) (ops : List QOp)
    (hreg : (lookupA q.backoff name).isSome = true)
    (hops : ∀ t : Int, QOp.qdied name t ∉ ops) :
    (lookupA (cancel_restart q name).backoff_pos name = some 0 ∧
     lookupA (cancel_restart q name).restart_time name = some none ∧
     noPending (cancel_restart q name) name) ∧
    (∀ q' outs, runOps (cancel_restart q name) ops = some (q', outs) →
      name ∉ outs ∧ noPending q' name) := by
  rcases Option.isSome_iff_exists.mp hreg with ⟨bl, hl⟩
  have hcq : cancel_restart q name =
      { q with
        restart_queue := removeCancelled (q.restart_queue.map (fun e =>
          if e.2 = some name then (e.1, (none : Option String)) else e))
        backoff_pos := insertA q.backoff_pos name 0
        restart_time := insertA q.restart_time name none } := by
    unfold cancel_restart
    rw [hl]
  constructor
  · refine ⟨?_, ?_, cancel_restart_noPending q name hreg⟩
    · rw [hcq]
      exact lookupA_insertA_self _ _ _
    · rw [hcq]
      exact lookupA_insertA_self _ _ _
  · intro q' outs hrun
    have h := runOps_noPending name ops (cancel_restart q name) hops
      (cancel_restart_noPending q name hreg) q' outs hrun
    exact ⟨h.2, h.1⟩

/-- Witness for C8: register `"d"`, cancel it, then poll the queue at
time 100 — the daemon is not handed back to the event loop. -/
theorem claim_C8_witness :
    (lookupA (rqAdd rqEmpty "d" [0, 5]).backoff "d").isSome = true ∧
    "d" ∉ ([] : List String) :=
  ⟨by decide,
    ((claim_C8_cancel_no_fire (rqAdd rqEmpty "d" [0, 5]) "d" [QOp.qready 100]
          (by decide) (by intro t ht; simp at ht)).2
        ⟨[], [("d", [0, 5])], [("d", 0)], [("d", none)]⟩ [] (by decide)).1⟩

/-! ## Sorting lemmas (for the reload ordering claims) -/

theorem mem_insertSorted {α : Type} (le : α → α → Bool) (x : α) :
    ∀ (l : List α) (y : α), y ∈ insertSorted le x l ↔ y = x ∨ y ∈ l := by
  intro l
  induction l with
  | nil => intro y; simp [insertSorted]
  | cons hd t ih =>
      intro y
      by_cases h : le x hd
      · simp [insertSorted, if_pos h]
      · simp only [insertSorted, if_neg h, List.mem_cons, ih]
        tauto

theorem mem_sortByB {α : Type} (le : α → α → Bool) :
    ∀ (l : List α) (y : α), y ∈ sortByB le l ↔ y ∈ l := by
  intro l
  induction l with
  | nil => intro y; simp [sortByB]
  | cons hd t ih =>
      intro y
      show y ∈ insertSorted le hd (sortByB le t) ↔ _
      rw [mem_insertSorted, ih]
      simp

theorem pairwise_insertSorted {α : Type} (le : α → α → Bool)
    (htot : ∀ a b, le a b || le b a)
    (htrans : ∀ a b c, le a b = true → le b c = true → le a c = true) (x : α) :
    ∀ (l : List α), List.Pairwise (fun a b => le a b = true) l →
      List.Pairwise (fun a b => le a b = true) (insertSorted le x l) := by
  intro l
  induction l with
  | nil => intro _; simp [insertSorted]
  | cons hd t ih =>
      intro hp
      rcases List.pairwise_cons.mp hp with ⟨hhd, ht⟩
      by_cases h : le x hd
      · rw [show insertSorted le x (hd :: t) = x :: hd :: t from by
          simp [insertSorted, h]]
        refine List.pairwise_cons.mpr ⟨?_, hp⟩
        intro y hy
        rcases List.mem_cons.mp hy with rfl | hy'
        · exact h
        · exact htrans x hd y h (hhd y hy')
      · rw [show insertSorted le x (hd :: t) = hd :: insertSorted le x t from by
          simp [insertSorted, h]]
        refine List.pairwise_cons.mpr ⟨?_, ih ht⟩
        intro y hy
        rcases (mem_insertSorted le x t y).mp hy with heq | hy'
        · rw [heq]
          have := htot x hd
          rcases Bool.or_eq_true_iff.mp this with h' | h'
          · exact absurd h' h
          · exact h'
        · exact hhd y hy'

theorem pairwise_sortByB {α : Type} (le : α → α → Bool)
    (htot : ∀ a b, le a b || le b a)
    (htrans : ∀ a b c, le a b = true → le b c = true → le a c = true) :
    ∀ (l : List α), List.Pairwise (fun a b => le a b = true) (sortByB le l) := by
  intro l
  induction l with
  | nil => simp [sortByB]
  | cons hd t ih => exact pairwise_insertSorted le htot htrans hd _ ih

/-- Two members of a sorted list, strictly ordered by the sort
relation, occur in order. -/
theorem pair_sublist_of_pairwise {α : Type} {le : α → α → Bool} :
    ∀ {l : List α} {a b : α}, List.Pairwise (fun u v => le u v = true) l →
      a ∈ l → b ∈ l → le a b = true → le b a = false →
      List.Sublist [a, b] l := by
  intro l
  induction l with
  | nil => intro a b _ ha _ _ _; cases ha
  | cons hd t ih =>
      intro a b hp ha hb hab hba
      rcases List.pairwise_cons.mp hp with ⟨hhd, ht⟩
      rcases List.mem_cons.mp ha with rfl | ha'
      · rcases List.mem_cons.mp hb with heq | hb'
        · rw [heq] at hba
          rw [heq] at hab
          rw [hab] at hba
          cases hba
        · exact List.Sublist.cons₂ a (List.singleton_sublist.mpr hb')
      · rcases List.mem_cons.mp hb with rfl | hb'
        · rw [hhd a ha'] at hba
          cases hba
        · exact List.Sublist.cons hd (ih ht ha' hb' hab hba)

theorem sublist_single_flatMap {α : Type} (f : α → List Ev) (g : α → Ev)
    (hg : ∀ z, List.Sublist [g z] (f z)) :
    ∀ {l : List α} {y : α}, y ∈ l → List.Sublist [g y] (l.flatMap f) := by
  intro l
  induction l with
  | nil => intro y hy; cases hy
  | cons hd t ih =>
      intro y hy
      rcases List.mem_cons.mp hy with rfl | hy'
      · exact (hg y).trans (List.sublist_append_left _ _)
      · exact (ih hy').trans (List.sublist_append_right _ _)

theorem sublist_pair_flatMap {α : Type} (f : α → List Ev) (g : α → Ev)
    (hg : ∀ z, List.Sublist [g z] (f z)) :
    ∀ {l : List α} {x y : α}, List.Sublist [x, y] l →
      List.Sublist [g x, g y] (l.flatMap f) := by
  intro l
  induction l with
  | nil => intro x y h; cases h
  | cons hd t ih =>
      intro x y h
      cases h with
      | cons _ h' => exact (ih h').trans (List.sublist_append_right _ _)
      | cons₂ _ h' =>
          exact List.Sublist.append (hg _)
            (sublist_single_flatMap f g hg (List.singleton_sublist.mp h'))

/-! ## Order facts for the sort keys -/

theorem strLtB_irrefl : ∀ l : List Char, strLtB l l = false := by
  intro l
  induction l with
  | nil => rfl
  | cons hd t ih => simp [strLtB, ih]

theorem strLtB_asymm : ∀ {l1 l2 : List Char}, strLtB l1 l2 = true → strLtB l2 l1 = false := by
  intro l1
  induction l1 with
  | nil =>
      intro l2 h
      cases l2 with
      | nil => cases h
      | cons b bs => rfl
  | cons a as ih =>
      intro l2 h
      cases l2 with
      | nil => cases h
      | cons b bs =>
          simp only [strLtB] at h ⊢
          by_cases h1 : a.toNat < b.toNat
          · rw [if_neg (by omega), if_pos h1]
          · rw [if_neg h1] at h
            by_cases h2 : b.toNat < a.toNat
            · rw [if_pos h2] at h
              cases h
            · rw [if_neg h2] at h
              rw [if_neg h2, if_neg h1]
              exact ih h

theorem strLtB_trans : ∀ {l1 l2 l3 : List Char},
    strLtB l1 l2 = true → strLtB l2 l3 = true → strLtB l1 l3 = true := by
  intro l1
  induction l1 with
  | nil =>
      intro l2 l3 h12 h23
      cases l2 with
      | nil => cases h12
      | cons b bs =>
          cases l3 with
          | nil => cases h23
          | cons c cs => rfl
  | cons a as ih =>
      intro l2 l3 h12 h23
      cases l2 with
      | nil => cases h12
      | cons b bs =>
          cases l3 with
          | nil => cases h23
          | cons c cs =>
              simp only [strLtB] at h12 h23 ⊢
              by_cases hab : a.toNat < b.toNat
              · by_cases hbc : b.toNat < c.toNat
                · rw [if_pos (by omega)]
                · rw [if_neg hbc] at h23
                  by_cases hcb : c.toNat < b.toNat
                  · rw [if_pos hcb] at h23
                    cases h23
                  · rw [if_pos (by omega)]
              · rw [if_neg hab] at h12
                by_cases hba : b.toNat < a.toNat
                · rw [if_pos hba] at h12
                  cases h12
                · rw [if_neg hba] at h12
                  by_cases hbc : b.toNat < c.toNat
                  · rw [if_pos (by omega)]
                  · rw [if_neg hbc] at h23
                    by_cases hcb : c.toNat < b.toNat
                    · rw [if_pos hcb] at h23
                      cases h23
                    · rw [if_neg hcb] at h23
                      rw [if_neg (by omega), if_neg (by omega)]
                      exact ih h12 h23

theorem strLtB_total : ∀ l1 l2 : List Char,
    l1 = l2 ∨ strLtB l1 l2 = true ∨ strLtB l2 l1 = true := by
  intro l1
  induction l1 with
  | nil =>
      intro l2
      cases l2 with
      | nil => exact Or.inl rfl
      | cons b bs => exact Or.inr (Or.inl rfl)
  | cons a as ih =>
      intro l2
      cases l2 with
      | nil => exact Or.inr (Or.inr rfl)
      | cons b bs =>
          by_cases hab : a.toNat < b.toNat
          · refine Or.inr (Or.inl ?_)
            simp [strLtB, hab]
          · by_cases hba : b.toNat < a.toNat
            · refine Or.inr (Or.inr ?_)
              simp [strLtB, hba]
            · have he : a.toNat = b.toNat := by omega
              have hc : a = b := Char.ext (UInt32.toNat.inj he)
              subst hc
              rcases ih bs with h | h | h
              · exact Or.inl (by rw [h])
              · refine Or.inr (Or.inl ?_)
                simp [strLtB, h]
              · refine Or.inr (Or.inr ?_)
                simp [strLtB, h]

theorem string_eq_of_data {a b : String} (h : a.data = b.data) : a = b := by
  cases a
  cases b
  simp_all

theorem strLe_total : ∀ a b : String, (strLe a b || strLe b a) = true := by
  intro a b
  rcases strLtB_total a.data b.data with h | h | h
  · have : a = b := string_eq_of_data h
    subst this
    simp [strLe]
  · simp [strLe, h]
  · simp [strLe, h]

theorem strLe_trans : ∀ a b c : String,
    strLe a b = true → strLe b c = true → strLe a c = true := by
  intro a b c hab hbc
  simp only [strLe, Bool.or_eq_true, decide_eq_true_eq] at hab hbc ⊢
  rcases hab with rfl | hab
  · exact hbc
  · rcases hbc with rfl | hbc
    · exact Or.inr hab
    · exact Or.inr (strLtB_trans hab hbc)

theorem strLe_of_strLtB {a b : String} (h : strLtB a.data b.data = true) :
    strLe a b = true := by
  simp [strLe, h]

theorem not_strLe_of_strLtB {a b : String} (h : strLtB a.data b.data = true) :
    strLe b a = false := by
  simp only [strLe, Bool.or_eq_false_iff, decide_eq_false_iff_not]
  constructor
  · intro he
    subst he
    rw [strLtB_irrefl] at h
    cases h
  · exact strLtB_asymm h

theorem prioLe_total : ∀ a b : String × Handle, (prioLe a b || prioLe b a) = true := by
  intro a b
  simp only [prioLe, Bool.or_eq_true, Bool.and_eq_true, decide_eq_true_eq]
  by_cases h1 : a.2.start_priority < b.2.start_priority
  · tauto
  · by_cases h2 : b.2.start_priority < a.2.start_priority
    · tauto
    · have he : a.2.start_priority = b.2.start_priority := by omega
      have := strLe_total a.2.name b.2.name
      rcases Bool.or_eq_true_iff.mp this with h | h
      · exact Or.inl (Or.inr ⟨he, h⟩)
      · exact Or.inr (Or.inr ⟨he.symm, h⟩)

theorem prioLe_trans : ∀ a b c : String × Handle,
    prioLe a b = true → prioLe b c = true → prioLe a c = true := by
  intro a b c hab hbc
  simp only [prioLe, Bool.or_eq_true, Bool.and_eq_true, decide_eq_true_eq] at hab hbc ⊢
  rcases hab with hab | ⟨hab1, hab2⟩
  · rcases hbc with hbc | ⟨hbc1, hbc2⟩
    · exact Or.inl (by omega)
    · exact Or.inl (by omega)
  · rcases hbc with hbc | ⟨hbc1, hbc2⟩
    · exact Or.inl (by omega)
    · exact Or.inr ⟨by omega, strLe_trans _ _ _ hab2 hbc2⟩

theorem prioLe_of_lt {a b : String × Handle}
    (h : a.2.start_priority < b.2.start_priority) : prioLe a b = true := by
  simp [prioLe, h]

theorem not_prioLe_of_lt {a b : String × Handle}
    (h : a.2.start_priority < b.2.start_priority) : prioLe b a = false := by
  simp only [prioLe, Bool.or_eq_false_iff, Bool.and_eq_false_iff,
    decide_eq_false_iff_not]
  constructor
  · omega
  · left
    omega

/-! ## Event traces of the reload phases -/

theorem doStop_events {st : CState} {n : String} {st' : CState} {ev : List Ev}
    (h : doStop st n = some (st', ev)) : ev = [Ev.stop n] := by
  unfold doStop at h
  split at h
  · cases h
  · cases h
    rfl

theorem doStart_events {st : CState} {n : String} {now : Int} {st' : CState}
    {ev : List Ev} (h : doStart st n now = some (st', ev)) : ev = [Ev.start n] := by
  unfold doStart at h
  split at h
  · cases h
  · split at h
    · cases h
      rfl
    · cases h
      rfl

theorem stopOne_events {leaked : String} {st : CState} {n : String} {st' : CState}
    {ev : List Ev} (h : stopOne leaked st n = some (st', ev)) : ev = [Ev.stop n] := by
  unfold stopOne at h
  split at h
  · cases h
  · split at h
    · cases h
    · next st1 ev1 heq =>
        cases h
        exact doStop_events heq

theorem restartOne_events {now : Int} {st : CState} {nh : String × Handle}
    {st' : CState} {ev : List Ev} (h : restartOne now st nh = some (st', ev)) :
    ev = [Ev.stop nh.1, Ev.start nh.1] := by
  unfold restartOne at h
  split at h
  · cases h
  · next st1 ev1 heq1 =>
      simp only [] at h
      split at h
      · cases h
      · next st3 ev2 heq2 =>
          cases h
          rw [doStop_events heq1, doStart_events heq2]
          rfl

theorem startOne_events {now : Int} {st : CState} {nh : String × Handle}
    {st' : CState} {ev : List Ev} (h : startOne now st nh = some (st', ev)) :
    ev = [Ev.start nh.1] := by
  unfold startOne at h
  exact doStart_events h

/-- The trace of one reload phase is the concatenation of the per-item
traces. -/
theorem runPhase_events {α : Type} (f : CState → α → Option (CState × List Ev))
    (g : α → List Ev)
    (hf : ∀ st x st' ev, f st x = some (st', ev) → ev = g x) :
    ∀ (xs : List α) (st st' : CState) (evs : List Ev),
      runPhase f st xs = some (st', evs) → evs = xs.flatMap g := by
  intro xs
  induction xs with
  | nil =>
      intro st st' evs h
      cases h
      rfl
  | cons x rest ih =>
      intro st st' evs h
      unfold runPhase at h
      cases hstep : f st x with
      | none => rw [hstep] at h; cases h
      | some pr =>
          rw [hstep] at h
          rcases pr with ⟨st1, e1⟩
          simp only [] at h
          cases hrun : runPhase f st1 rest with
          | none => rw [hrun] at h; cases h
          | some pr2 =>
              rw [hrun] at h
              rcases pr2 with ⟨st2, e2⟩
              simp only [Option.some.injEq, Prod.mk.injEq] at h
              rcases h with ⟨rfl, rfl⟩
              rw [hf st x st1 e1 hstep, ih st1 st2 e2 hrun]
              rfl

/-! ## Claim C3 -/

/-- C3 (amended): during a reload the outgoing daemons are stopped in
ascending lexicographic *name* order (`sorted(daemons_to_stop)`), not
in reverse priority order; priority ordering holds only within each
of the two start batches: within `daemons_to_restart` and within
`daemons_to_start` (each sorted by `(start_priority, name)`), a
daemon of strictly lower priority is stopped and started before one
of strictly higher priority. -/
theorem claim_C3_reload_order (st : CState) (specs : List (String × DSpec))
    (leaked : String) (now : Int) (tr : List Ev) (st' : CState)
    (hre : reload st specs leaked now = some (tr, st')) :
    (∀ a b, a ∈ (classify st.fleet specs).1 → b ∈ (classify st.fleet specs).1 →
      strLtB a.data b.data = true →
      List.Sublist [Ev.stop a, Ev.stop b] tr) ∧
    (∀ x y, x ∈ (classify st.fleet specs).2.2.1 →
      y ∈ (classify st.fleet specs).2.2.1 →
      x.2.start_priority < y.2.start_priority →
      List.Sublist [Ev.stop x.1, Ev.stop y.1] tr ∧
      List.Sublist [Ev.start x.1, Ev.start y.1] tr) ∧
    (∀ x y, x ∈ (classify st.fleet specs).2.1 → y ∈ (classify st.fleet specs).2.1 →
      x.2.start_priority < y.2.start_priority →
      List.Sublist [Ev.start x.1, Ev.start y.1] tr) := by
  unfold reload at hre
  simp only [] at hre
  split at hre
  · cases hre
  · next st1 ev1 h1 =>
      split at hre
      · cases hre
      · next st2 ev2 h2 =>
          split at hre
          · cases hre
          · next st3 ev3 h3 =>
              split at hre
              · cases hre
              · next st4 ev4 h4 =>
                  simp only [Option.some.injEq, Prod.mk.injEq] at hre
                  rcases hre with ⟨rfl, rfl⟩
                  have hev1 := runPhase_events (stopOne leaked)
                    (fun n => [Ev.stop n])
                    (fun _ x _ _ hx => stopOne_events hx) _ _ _ _ h1
                  have hev2 := runPhase_events (restartOne now)
                    (fun nh => [Ev.stop nh.1, Ev.start nh.1])
                    (fun _ x _ _ hx => restartOne_events hx) _ _ _ _ h2
                  have hev3 := runPhase_events (startOne now)
                    (fun nh => [Ev.start nh.1])
                    (fun _ x _ _ hx => startOne_events hx) _ _ _ _ h3
                  have hseg1 : List.Sublist ev1 (ev1 ++ ev2 ++ ev3 ++ ev4) :=
                    ((List.sublist_append_left ev1 ev2).trans
                      (List.sublist_append_left _ ev3)).trans
                      (List.sublist_append_left _ ev4)
                  have hseg2 : List.Sublist ev2 (ev1 ++ ev2 ++ ev3 ++ ev4) :=
                    ((List.sublist_append_right ev1 ev2).trans
                      (List.sublist_append_left _ ev3)).trans
                      (List.sublist_append_left _ ev4)
                  have hseg3 : List.Sublist ev3 (ev1 ++ ev2 ++ ev3 ++ ev4) :=
                    (List.sublist_append_right (ev1 ++ ev2) ev3).trans
                      (List.sublist_append_left _ ev4)
                  refine ⟨?_, ?_, ?_⟩
                  · intro a b ha hb hlt
                    have hpair : List.Sublist [a, b]
                        (sortByB strLe (classify st.fleet specs).1) :=
                      pair_sublist_of_pairwise
                        (pairwise_sortByB strLe strLe_total strLe_trans _)
                        ((mem_sortByB _ _ _).mpr ha) ((mem_sortByB _ _ _).mpr hb)
                        (strLe_of_strLtB hlt) (not_strLe_of_strLtB hlt)
                    have hin : List.Sublist [Ev.stop a, Ev.stop b] ev1 := by
                      rw [hev1]
                      exact sublist_pair_flatMap _ Ev.stop
                        (fun z => List.Sublist.refl _) hpair
                    exact hin.trans hseg1
                  · intro x y hx hy hlt
                    have hpair : List.Sublist [x, y]
                        (sortByB prioLe (classify st.fleet specs).2.2.1) :=
                      pair_sublist_of_pairwise
                        (pairwise_sortByB prioLe prioLe_total prioLe_trans _)
                        ((mem_sortByB _ _ _).mpr hx) ((mem_sortByB _ _ _).mpr hy)
                        (prioLe_of_lt hlt) (not_prioLe_of_lt hlt)
                    constructor
                    · have hin : List.Sublist [Ev.stop x.1, Ev.stop y.1] ev2 := by
                        rw [hev2]
                        exact sublist_pair_flatMap
                          (fun nh => [Ev.stop nh.1, Ev.start nh.1])
                          (fun nh => Ev.stop nh.1)
                          (fun z => List.Sublist.cons₂ _ (List.nil_sublist _)) hpair
                      exact hin.trans hseg2
                    · have hin : List.Sublist [Ev.start x.1, Ev.start y.1] ev2 := by
                        rw [hev2]
                        exact sublist_pair_flatMap
                          (fun nh => [Ev.stop nh.1, Ev.start nh.1])
                          (fun nh => Ev.start nh.1)
                          (fun z => List.singleton_sublist.mpr (by simp)) hpair
                      exact hin.trans hseg2
                  · intro x y hx hy hlt
                    have hpair : List.Sublist [x, y]
                        (sortByB prioLe (classify st.fleet specs).2.1) :=
                      pair_sublist_of_pairwise
                        (pairwise_sortByB prioLe prioLe_total prioLe_trans _)
                        ((mem_sortByB _ _ _).mpr hx) ((mem_sortByB _ _ _).mpr hy)
                        (prioLe_of_lt hlt) (not_prioLe_of_lt hlt)
                    have hin : List.Sublist [Ev.start x.1, Ev.start y.1] ev3 := by
                      rw [hev3]
                      exact sublist_pair_flatMap _ (fun nh => Ev.start nh.1)
                        (fun z => List.Sublist.refl _) hpair
                    exact hin.trans hseg3

/-- A concrete running handle with priority 5 (claim C3 scenario). -/
def hC3a : Handle :=
  { start_command := Action.sig 15 true, admin_commands := [], child_pid := some 100,
    name := "a", running := true, restart := [0, 5], start_priority := 5 }

/-- A concrete running handle with priority 20 (claim C3 scenario). -/
def hC3z : Handle :=
  { start_command := Action.sig 15 true, admin_commands := [], child_pid := some 200,
    name := "z", running := true, restart := [0, 5], start_priority := 20 }

/-- Witness for C3: reloading away the fleet `{a: priority 5,
z: priority 20}` stops `a` and then `z`, in name order. -/
theorem claim_C3_witness :
    List.Sublist [Ev.stop "a", Ev.stop "z"] [Ev.stop "a", Ev.stop "z"] :=
  (claim_C3_reload_order ⟨[("a", hC3a), ("z", hC3z)], rqEmpty, 300⟩ [] "SIGTERM" 0
      [Ev.stop "a", Ev.stop "z"] ⟨[], rqEmpty, 300⟩ (by decide)).1
    "a" "z" (by decide) (by decide) (by decide)

/-- C3 counterexample: with outgoing daemons `a` (priority 5) and `z`
(priority 20) the reload trace is `[stop a, stop z]` — the
lower-priority daemon is stopped first, so the claimed "stop of B
happens before stop of A when priority(A) < priority(B)" is false:
the stops are ordered by name, not by reverse priority. -/
theorem claim_C3_counterexample :
    (reload ⟨[("a", hC3a), ("z", hC3z)], rqEmpty, 300⟩ [] "SIGTERM" 0).map
        (fun r => r.1) = some [Ev.stop "a", Ev.stop "z"] ∧
    hC3a.start_priority < hC3z.start_priority ∧
    ¬ List.Sublist [Ev.stop "z", Ev.stop "a"] [Ev.stop "a", Ev.stop "z"] := by
  decide

/-! ## State-tracking lemmas for `reload` -/

theorem lookupA_updateA_isSome {α : Type} (m : List (String × α)) (k n : String)
    (f : α → α) : (lookupA (updateA m k f) n).isSome = (lookupA m n).isSome := by
  by_cases h : k = n
  · subst h
    rw [lookupA_updateA_self]
    cases lookupA m k <;> rfl
  · rw [lookupA_updateA_ne _ _ _ _ h]

theorem lookupA_insertA_isSome {α : Type} (m : List (String × α)) (k n : String)
    (v : α) :
    (lookupA (insertA m k v) n).isSome =
      ((lookupA m n).isSome || decide (n = k)) := by
  by_cases h : n = k
  · subst h
    rw [lookupA_insertA_self]
    simp
  · rw [lookupA_insertA_ne _ _ _ _ (fun he => h he.symm)]
    simp [h]

theorem doStop_state {st : CState} {m : String} {st' : CState} {ev : List Ev}
    (h : doStop st m = some (st', ev)) :
    st'.fleet = updateA st.fleet m
      (fun g => { g with child_pid := none, running := false }) ∧
    st'.nextPid = st.nextPid ∧ ev = [Ev.stop m] := by
  unfold doStop at h
  split at h
  · cases h
  · cases h
    exact ⟨rfl, rfl, rfl⟩

theorem doStart_fleet {st : CState} {m : String} {now : Int} {st' : CState}
    {ev : List Ev} (h : doStart st m now = some (st', ev)) :
    ∃ g : Handle → Handle, st'.fleet = updateA st.fleet m g ∧
      (∀ x, (g x).running = true) ∧ ev = [Ev.start m] := by
  unfold doStart at h
  split at h
  · cases h
  · split at h
    · cases h
      exact ⟨_, rfl, fun x => rfl, rfl⟩
    · cases h
      exact ⟨_, rfl, fun x => rfl, rfl⟩

theorem stopOne_state {leaked : String} {st : CState} {m : String} {st' : CState}
    {ev : List Ev} (h : stopOne leaked st m = some (st', ev)) :
    st'.fleet = eraseA (updateA st.fleet m
      (fun g => { g with child_pid := none, running := false })) m ∧
    ev = [Ev.stop m] := by
  unfold stopOne at h
  split at h
  · cases h
  · split at h
    · cases h
    · next st1 ev1 heq =>
        cases h
        rcases doStop_state heq with ⟨hf, _, hev⟩
        constructor
        · rw [hf]
        · exact hev

theorem restartOne_fleet {now : Int} {st : CState} {nh : String × Handle}
    {st' : CState} {ev : List Ev} (h : restartOne now st nh = some (st', ev)) :
    (∀ n, n ≠ nh.1 → lookupA st'.fleet n = lookupA st.fleet n) ∧
    (∀ n, (lookupA st'.fleet n).isSome =
      ((lookupA st.fleet n).isSome || decide (n = nh.1))) := by
  unfold restartOne at h
  split at h
  · cases h
  · next st1 ev1 heq1 =>
      simp only [] at h
      split at h
      · cases h
      · next st3 ev2 heq2 =>
          cases h
          rcases doStop_state heq1 with ⟨hf1, _, _⟩
          rcases doStart_fleet heq2 with ⟨g, hf2, _, _⟩
          constructor
          · intro n hn
            rw [hf2, lookupA_updateA_ne _ _ _ _ (fun he => hn he.symm)]
            show lookupA (insertA st1.fleet nh.1 nh.2) n = _
            rw [lookupA_insertA_ne _ _ _ _ (fun he => hn he.symm), hf1,
              lookupA_updateA_ne _ _ _ _ (fun he => hn he.symm)]
          · intro n
            rw [hf2, lookupA_updateA_isSome]
            show (lookupA (insertA st1.fleet nh.1 nh.2) n).isSome = _
            rw [lookupA_insertA_isSome, hf1, lookupA_updateA_isSome]

theorem startOne_fleet {now : Int} {st : CState} {nh : String × Handle}
    {st' : CState} {ev : List Ev} (h : startOne now st nh = some (st', ev)) :
    (∀ n, n ≠ nh.1 → lookupA st'.fleet n = lookupA st.fleet n) ∧
    (∀ n, (lookupA st'.fleet n).isSome =
      ((lookupA st.fleet n).isSome || decide (n = nh.1))) := by
  unfold startOne at h
  simp only [] at h
  rcases doStart_fleet h with ⟨g, hf, _, _⟩
  constructor
  · intro n hn
    rw [hf, lookupA_updateA_ne _ _ _ _ (fun he => hn he.symm),
      lookupA_insertA_ne _ _ _ _ (fun he => hn he.symm)]
  · intro n
    rw [hf, lookupA_updateA_isSome, lookupA_insertA_isSome]

/-- Generic invariant/frame lemma over one reload phase. -/
theorem runPhase_inv {α : Type} (f : CState → α → Option (CState × List Ev))
    (P : CState → Prop) (name : String) :
    ∀ (xs : List α),
      (∀ st x st' ev, x ∈ xs → P st → f st x = some (st', ev) →
        P st' ∧ Ev.stop name ∉ ev ∧ Ev.start name ∉ ev) →
      ∀ st st' evs, P st → runPhase f st xs = some (st', evs) →
        P st' ∧ Ev.stop name ∉ evs ∧ Ev.start name ∉ evs := by
  intro xs
  induction xs with
  | nil =>
      intro _ st st' evs hP h
      cases h
      exact ⟨hP, by simp, by simp⟩
  | cons x rest ih =>
      intro hstep st st' evs hP h
      unfold runPhase at h
      cases hx : f st x with
      | none => rw [hx] at h; cases h
      | some pr =>
          rw [hx] at h
          rcases pr with ⟨st1, e1⟩
          simp only [] at h
          cases hrun : runPhase f st1 rest with
          | none => rw [hrun] at h; cases h
          | some pr2 =>
              rw [hrun] at h
              rcases pr2 with ⟨st2, e2⟩
              simp only [Option.some.injEq, Prod.mk.injEq] at h
              rcases h with ⟨rfl, rfl⟩
              have h1 := hstep st x st1 e1 (List.mem_cons_self _ _) hP hx
              have hrest : ∀ st x st' ev, x ∈ rest → P st → f st x = some (st', ev) →
                  P st' ∧ Ev.stop name ∉ ev ∧ Ev.start name ∉ ev :=
                fun st x st' ev hx' => hstep st x st' ev (List.mem_cons_of_mem _ hx')
              have h2 := ih hrest st1 st2 e2 h1.1 hrun
              refine ⟨h2.1, ?_, ?_⟩
              · simp only [List.mem_append]
                rintro (hm | hm)
                · exact h1.2.1 hm
                · exact h2.2.1 hm
              · simp only [List.mem_append]
                rintro (hm | hm)
                · exact h1.2.2 hm
                · exact h2.2.2 hm

theorem lookupA_eq_of_mem_nodup {α : Type} {m : List (String × α)}
    (hnd : (m.map (·.1)).Nodup) {k : String} {v : α} (h : (k, v) ∈ m) :
    lookupA m k = some v := by
  induction m with
  | nil => cases h
  | cons hd t ih =>
      rcases List.mem_cons.mp h with heq | hmem
      · rw [← heq]
        simp [lookupA]
      · have hnd' := List.nodup_cons.mp hnd
        have hne : hd.1 ≠ k := by
          intro he
          apply hnd'.1
          show hd.1 ∈ List.map (fun x => x.1) t
          rw [he]
          exact List.mem_map.mpr ⟨(k, v), hmem, rfl⟩
        simp only [lookupA, if_neg hne]
        exact ih hnd'.2 hmem

theorem mem_toStop_iff {fleet : List (String × Handle)} {specs : List (String × DSpec)}
    {n : String} :
    n ∈ (classify fleet specs).1 ↔
      (lookupA fleet n).isSome = true ∧ lookupA specs n = none := by
  unfold classify
  simp only []
  constructor
  · intro h
    rcases List.mem_map.mp h with ⟨e, he, rfl⟩
    rcases List.mem_filter.mp he with ⟨hmem, hp⟩
    exact ⟨lookupA_isSome_of_mem hmem, Option.isNone_iff_eq_none.mp hp⟩
  · rintro ⟨hA, hS⟩
    rcases Option.isSome_iff_exists.mp hA with ⟨hdl, hf⟩
    exact List.mem_map.mpr
      ⟨(n, hdl), List.mem_filter.mpr ⟨lookupA_mem hf, by simp [hS]⟩, rfl⟩

theorem mem_toStart_elim {fleet : List (String × Handle)} {specs : List (String × DSpec)}
    {nh : String × Handle} (h : nh ∈ (classify fleet specs).2.1) :
    lookupA fleet nh.1 = none ∧
      ∃ s, (nh.1, s) ∈ specs ∧ nh.2 = buildHandle nh.1 s := by
  unfold classify at h
  simp only [] at h
  rcases List.mem_filter.mp h with ⟨hmem, hp⟩
  rcases List.mem_map.mp hmem with ⟨ns, hns, heq⟩
  refine ⟨Option.isNone_iff_eq_none.mp hp, ns.2, ?_, ?_⟩
  · rw [← heq]
    exact hns
  · rw [← heq]

theorem toStart_of_mem {fleet : List (String × Handle)} {specs : List (String × DSpec)}
    {n : String} {s : DSpec} (hs : (n, s) ∈ specs)
    (hA : lookupA fleet n = none) :
    (n, buildHandle n s) ∈ (classify fleet specs).2.1 := by
  unfold classify
  simp only []
  refine List.mem_filter.mpr ⟨?_, by simp [hA]⟩
  exact List.mem_map.mpr ⟨(n, s), hs, rfl⟩

theorem mem_toRestart_elim {fleet : List (String × Handle)}
    {specs : List (String × DSpec)} {nh : String × Handle}
    (h : nh ∈ (classify fleet specs).2.2.1) :
    ∃ s hdl, (nh.1, s) ∈ specs ∧ nh.2 = buildHandle nh.1 s ∧
      lookupA fleet nh.1 = some hdl ∧ daemonEq (buildHandle nh.1 s) hdl = false := by
  unfold classify at h
  simp only [] at h
  rcases List.mem_filter.mp h with ⟨hmem, hp⟩
  rcases List.mem_map.mp hmem with ⟨ns, hns, heq⟩
  cases hl : lookupA fleet nh.1 with
  | none => rw [hl] at hp; cases hp
  | some hdl =>
      rw [hl] at hp
      refine ⟨ns.2, hdl, ?_, ?_, rfl, ?_⟩
      · rw [← heq]
        exact hns
      · rw [← heq]
      · have h2 : nh.2 = buildHandle nh.1 ns.2 := by rw [← heq]
        rw [← h2]
        simpa using hp

theorem applyUpdates_proj (toUpdate : List (String × Handle)) :
    ∀ (fleet : List (String × Handle)) (n : String),
      (lookupA (applyUpdates fleet toUpdate) n).map
          (fun h => (h.child_pid, h.running)) =
        (lookupA fleet n).map (fun h => (h.child_pid, h.running)) := by
  induction toUpdate with
  | nil => intro fleet n; rfl
  | cons nh rest ih =>
      intro fleet n
      show (lookupA (applyUpdates (updateA fleet nh.1 _) rest) n).map _ = _
      rw [ih]
      by_cases h : nh.1 = n
      · subst h
        rw [lookupA_updateA_self]
        cases lookupA fleet nh.1 <;> rfl
      · rw [lookupA_updateA_ne _ _ _ _ h]

theorem runPhase_stopOne_lookup (leaked : String) :
    ∀ (names : List String) (st st' : CState) (evs : List Ev),
      runPhase (stopOne leaked) st names = some (st', evs) →
      ∀ n, lookupA st'.fleet n =
        if n ∈ names then none else lookupA st.fleet n := by
  intro names
  induction names with
  | nil =>
      intro st st' evs h n
      cases h
      simp
  | cons m rest ih =>
      intro st st' evs h n
      unfold runPhase at h
      cases hx : stopOne leaked st m with
      | none => rw [hx] at h; cases h
      | some pr =>
          rw [hx] at h
          rcases pr with ⟨st1, e1⟩
          simp only [] at h
          cases hrun : runPhase (stopOne leaked) st1 rest with
          | none => rw [hrun] at h; cases h
          | some pr2 =>
              rw [hrun] at h
              rcases pr2 with ⟨st2, e2⟩
              simp only [Option.some.injEq, Prod.mk.injEq] at h
              rcases h with ⟨rfl, rfl⟩
              rcases stopOne_state hx with ⟨hf, _⟩
              by_cases hn : n = m
              · subst hn
                simp only [List.mem_cons, true_or, if_true]
                rw [ih st1 st2 e2 hrun n]
                by_cases hr : n ∈ rest
                · rw [if_pos hr]
                · rw [if_neg hr, hf, lookupA_eraseA_self]
              · rw [ih st1 st2 e2 hrun n]
                by_cases hr : n ∈ rest
                · rw [if_pos hr, if_pos (List.mem_cons_of_mem _ hr)]
                · rw [if_neg hr, if_neg (by simp [hn, hr]), hf,
                    lookupA_eraseA_ne _ _ _ (fun he => hn he.symm),
                    lookupA_updateA_ne _ _ _ _ (fun he => hn he.symm)]

theorem runPhase_isSome_add {α : Type} (f : CState → α → Option (CState × List Ev))
    (key : α → String)
    (hf : ∀ st x st' ev, f st x = some (st', ev) → ∀ n,
      (lookupA st'.fleet n).isSome =
        ((lookupA st.fleet n).isSome || decide (n = key x))) :
    ∀ (xs : List α) (st st' : CState) (evs : List Ev),
      runPhase f st xs = some (st', evs) →
      ∀ n, (lookupA st'.fleet n).isSome =
        ((lookupA st.fleet n).isSome || decide (n ∈ xs.map key)) := by
  intro xs
  induction xs with
  | nil =>
      intro st st' evs h n
      cases h
      simp
  | cons x rest ih =>
      intro st st' evs h n
      unfold runPhase at h
      cases hx : f st x with
      | none => rw [hx] at h; cases h
      | some pr =>
          rw [hx] at h
          rcases pr with ⟨st1, e1⟩
          simp only [] at h
          cases hrun : runPhase f st1 rest with
          | none => rw [hrun] at h; cases h
          | some pr2 =>
              rw [hrun] at h
              rcases pr2 with ⟨st2, e2⟩
              simp only [Option.some.injEq, Prod.mk.injEq] at h
              rcases h with ⟨rfl, rfl⟩
              rw [ih st1 st2 e2 hrun n, hf st x st1 e1 hx n]
              simp only [List.map_cons, List.mem_cons]
              by_cases h1 : n = key x <;> by_cases h2 : n ∈ rest.map key <;>
                simp [h1, h2]

theorem recoverOne_isSome {now : Int} {st : CState} {x : String × Handle}
    {st' : CState} {ev : List Ev}
    (hpres : (lookupA st.fleet x.1).isSome = true)
    (h : recoverOne now st x = some (st', ev)) :
    ∀ n, (lookupA st'.fleet n).isSome = (lookupA st.fleet n).isSome := by
  unfold recoverOne at h
  simp only [] at h
  split at h
  · cases h
    intro n
    rfl
  · rcases doStart_fleet h with ⟨g, hf, _, _⟩
    intro n
    rw [hf, lookupA_updateA_isSome, lookupA_insertA_isSome]
    by_cases hn : n = x.1
    · subst hn
      simp [hpres]
    · simp [hn]

theorem runPhase_recoverOne_isSome (now : Int) :
    ∀ (snapshot : List (String × Handle)) (st st' : CState) (evs : List Ev),
      (∀ x ∈ snapshot, (lookupA st.fleet x.1).isSome = true) →
      runPhase (recoverOne now) st snapshot = some (st', evs) →
      ∀ n, (lookupA st'.fleet n).isSome = (lookupA st.fleet n).isSome := by
  intro snapshot
  induction snapshot with
  | nil =>
      intro st st' evs _ h n
      cases h
      rfl
  | cons x rest ih =>
      intro st st' evs hpres h n
      unfold runPhase at h
      cases hx : recoverOne now st x with
      | none => rw [hx] at h; cases h
      | some pr =>
          rw [hx] at h
          rcases pr with ⟨st1, e1⟩
          simp only [] at h
          cases hrun : runPhase (recoverOne now) st1 rest with
          | none => rw [hrun] at h; cases h
          | some pr2 =>
              rw [hrun] at h
              rcases pr2 with ⟨st2, e2⟩
              simp only [Option.some.injEq, Prod.mk.injEq] at h
              rcases h with ⟨rfl, rfl⟩
              have hstep := recoverOne_isSome (hpres x (List.mem_cons_self _ _)) hx
              have hpres' : ∀ y ∈ rest, (lookupA st1.fleet y.1).isSome = true := by
                intro y hy
                rw [hstep]
                exact hpres y (List.mem_cons_of_mem _ hy)
              rw [ih st1 st2 e2 hpres' hrun n, hstep]

theorem recoverOne_frame {now : Int} {st : CState} {x : String × Handle}
    {st' : CState} {ev : List Ev} (h : recoverOne now st x = some (st', ev))
    {name : String} (hne : x.1 ≠ name) :
    lookupA st'.fleet name = lookupA st.fleet name ∧
      Ev.stop name ∉ ev ∧ Ev.start name ∉ ev := by
  unfold recoverOne at h
  simp only [] at h
  split at h
  · cases h
    exact ⟨rfl, by simp, by simp⟩
  · rcases doStart_fleet h with ⟨g, hf, _, hev⟩
    subst hev
    refine ⟨?_, by simp, ?_⟩
    · rw [hf, lookupA_updateA_ne _ _ _ _ hne,
        lookupA_insertA_ne _ _ _ _ hne]
    · intro hm
      rcases List.mem_singleton.mp hm with heq
      cases heq
      exact hne rfl

/-- What the recovery loop can do at one element: skip it (already
running) or start it (its current `running` flag is false). -/
theorem recoverOne_cases {now : Int} {st : CState} {x : String × Handle}
    {st' : CState} {ev : List Ev} (h : recoverOne now st x = some (st', ev)) :
    (ev = [] ∧ st' = st) ∨
    (ev = [Ev.start x.1] ∧
      ((lookupA st.fleet x.1).getD x.2).running = false) := by
  unfold recoverOne at h
  simp only [] at h
  split at h
  · cases h
    exact Or.inl ⟨rfl, rfl⟩
  · next hr =>
      rcases doStart_fleet h with ⟨g, _, _, hev⟩
      exact Or.inr ⟨hev, by simpa using hr⟩

/-- After a recovery step, a daemon whose entry still shows
`running = false` had that same entry before the step. -/
theorem recoverOne_lookup_back {now : Int} {st : CState} {x : String × Handle}
    {st' : CState} {ev : List Ev} (h : recoverOne now st x = some (st', ev))
    {n : String} {h1 : Handle} (hl : lookupA st'.fleet n = some h1)
    (hrun : h1.running = false) : lookupA st.fleet n = some h1 := by
  unfold recoverOne at h
  simp only [] at h
  split at h
  · cases h
    exact hl
  · rcases doStart_fleet h with ⟨g, hf, hg, _⟩
    by_cases hn : n = x.1
    · subst hn
      rw [hf, lookupA_updateA_self] at hl
      cases hins : lookupA (insertA st.fleet x.1 ((lookupA st.fleet x.1).getD x.2)) x.1 with
      | none => rw [hins] at hl; cases hl
      | some v =>
          rw [hins] at hl
          simp only [Option.map_some'] at hl
          cases hl
          rw [hg v] at hrun
          cases hrun
    · rw [hf, lookupA_updateA_ne _ _ _ _ (fun he => hn he.symm),
        lookupA_insertA_ne _ _ _ _ (fun he => hn he.symm)] at hl
      exact hl

/-- Every event of the recovery loop is a start of a daemon that was
present and not running when the loop began. -/
theorem runPhase_recoverOne_events (now : Int) :
    ∀ (snapshot : List (String × Handle)) (st st' : CState) (evs : List Ev),
      (∀ x ∈ snapshot, (lookupA st.fleet x.1).isSome = true) →
      runPhase (recoverOne now) st snapshot = some (st', evs) →
      ∀ e ∈ evs, ∃ n h0, e = Ev.start n ∧ lookupA st.fleet n = some h0 ∧
        h0.running = false := by
  intro snapshot
  induction snapshot with
  | nil =>
      intro st st' evs _ h e he
      cases h
      cases he
  | cons x rest ih =>
      intro st st' evs hpres h e he
      unfold runPhase at h
      cases hx : recoverOne now st x with
      | none => rw [hx] at h; cases h
      | some pr =>
          rw [hx] at h
          rcases pr with ⟨st1, e1⟩
          simp only [] at h
          cases hrun : runPhase (recoverOne now) st1 rest with
          | none => rw [hrun] at h; cases h
          | some pr2 =>
              rw [hrun] at h
              rcases pr2 with ⟨st2, e2⟩
              simp only [Option.some.injEq, Prod.mk.injEq] at h
              rcases h with ⟨rfl, rfl⟩
              have hpx := hpres x (List.mem_cons_self _ _)
              rcases List.mem_append.mp he with he1 | he2
              · rcases recoverOne_cases hx with ⟨hev, _⟩ | ⟨hev, hr⟩
                · rw [hev] at he1
                  cases he1
                · rw [hev] at he1
                  rcases List.mem_singleton.mp he1 with rfl
                  rcases Option.isSome_iff_exists.mp hpx with ⟨h0, hl0⟩
                  refine ⟨x.1, h0, rfl, hl0, ?_⟩
                  rw [hl0] at hr
                  exact hr
              · have hpres' : ∀ y ∈ rest, (lookupA st1.fleet y.1).isSome = true := by
                  intro y hy
                  rw [recoverOne_isSome hpx hx]
                  exact hpres y (List.mem_cons_of_mem _ hy)
                rcases ih st1 st2 e2 hpres' hrun e he2 with ⟨n, h0, hee, hl, hr⟩
                exact ⟨n, h0, hee, recoverOne_lookup_back hx hl hr, hr⟩

/-- With every daemon running, the recovery loop does nothing. -/
theorem runPhase_recoverOne_all_running (now : Int) :
    ∀ (snapshot : List (String × Handle)) (st st' : CState) (evs : List Ev),
      (∀ x ∈ snapshot, ∃ hx, lookupA st.fleet x.1 = some hx ∧ hx.running = true) →
      runPhase (recoverOne now) st snapshot = some (st', evs) →
      evs = [] ∧ st' = st := by
  intro snapshot
  induction snapshot with
  | nil =>
      intro st st' evs _ h
      cases h
      exact ⟨rfl, rfl⟩
  | cons x rest ih =>
      intro st st' evs hall h
      unfold runPhase at h
      rcases hall x (List.mem_cons_self _ _) with ⟨hx0, hl0, hr0⟩
      have hx : recoverOne now st x = some (st, []) := by
        unfold recoverOne
        rw [hl0]
        simp [hr0]
      rw [hx] at h
      simp only [] at h
      cases hrun : runPhase (recoverOne now) st rest with
      | none => rw [hrun] at h; cases h
      | some pr2 =>
          rw [hrun] at h
          rcases pr2 with ⟨st2, e2⟩
          simp only [Option.some.injEq, Prod.mk.injEq] at h
          rcases h with ⟨rfl, rfl⟩
          have := ih st st2 e2 (fun y hy => hall y (List.mem_cons_of_mem _ hy)) hrun
          exact ⟨by simp [this.1], this.2⟩

/-! ## Claim C6 -/

/-- C6: after a successful reload with duplicate-free spec names, the
fleet holds exactly the spec's names; and every handle whose rebuilt
definition equals its current one (`Daemon.__eq__` compares the start
commands) and whose child is running keeps its pid: the entry's
`child_pid` survives unchanged and the trace contains no stop and no
start of that daemon. -/
theorem claim_C6_reload_truth (st : CState) (specs : List (String × DSpec))
    (leaked : String) (now : Int) (tr : List Ev) (st' : CState)
    (hnodup : (specs.map (fun x => x.1)).Nodup)
    (hre : reload st specs leaked now = some (tr, st')) :
    (∀ n, (lookupA st'.fleet n).isSome = (lookupA specs n).isSome) ∧
    (∀ name h spec, lookupA st.fleet name = some h →
      lookupA specs name = some spec →
      daemonEq (buildHandle name spec) h = true → h.running = true →
      ∃ h', lookupA st'.fleet name = some h' ∧ h'.child_pid = h.child_pid ∧
        Ev.stop name ∉ tr ∧ Ev.start name ∉ tr) := by
  unfold reload at hre
  simp only [] at hre
  split at hre
  · cases hre
  · next st1 ev1 h1 =>
      split at hre
      · cases hre
      · next st2 ev2 h2 =>
          split at hre
          · cases hre
          · next st3 ev3 h3 =>
              split at hre
              · cases hre
              · next st4 ev4 h4 =>
                  simp only [Option.some.injEq, Prod.mk.injEq] at hre
                  rcases hre with ⟨rfl, rfl⟩
                  have hk0 : ∀ n, (lookupA (applyUpdates st.fleet
                      (classify st.fleet specs).2.2.2) n).isSome =
                      (lookupA st.fleet n).isSome := by
                    intro n
                    have hp := applyUpdates_proj (classify st.fleet specs).2.2.2
                      st.fleet n
                    have hq := congrArg Option.isSome hp
                    simpa [Option.isSome_map'] using hq
                  have hk1 : ∀ n, lookupA st1.fleet n =
                      if n ∈ sortByB strLe (classify st.fleet specs).1 then none
                      else lookupA (applyUpdates st.fleet
                        (classify st.fleet specs).2.2.2) n :=
                    runPhase_stopOne_lookup leaked _ _ _ _ h1
                  have hk2 : ∀ n, (lookupA st2.fleet n).isSome =
                      ((lookupA st1.fleet n).isSome ||
                        decide (n ∈ (sortByB prioLe
                          (classify st.fleet specs).2.2.1).map (fun nh => nh.1))) :=
                    runPhase_isSome_add (restartOne now) (fun nh => nh.1)
                      (fun _ _ _ _ hx => (restartOne_fleet hx).2) _
                      ⟨st1.fleet, rqRebuild (classify st.fleet specs).2.1 st1.fleet
                        (classify st.fleet specs).2.2.1, st1.nextPid⟩ st2 ev2 h2
                  have hk3 : ∀ n, (lookupA st3.fleet n).isSome =
                      ((lookupA st2.fleet n).isSome ||
                        decide (n ∈ (sortByB prioLe
                          (classify st.fleet specs).2.1).map (fun nh => nh.1))) :=
                    runPhase_isSome_add (startOne now) (fun nh => nh.1)
                      (fun _ _ _ _ hx => (startOne_fleet hx).2) _ _ _ _ h3
                  have hk4 : ∀ n, (lookupA st4.fleet n).isSome =
                      (lookupA st3.fleet n).isSome :=
                    runPhase_recoverOne_isSome now st3.fleet st3 st4 ev4
                      (fun x hx => lookupA_isSome_of_mem hx) h4
                  constructor
                  · intro n
                    rw [hk4 n, hk3 n, hk2 n, hk1 n]
                    by_cases hS : (lookupA specs n).isSome = true
                    · rcases Option.isSome_iff_exists.mp hS with ⟨s, hs⟩
                      have hnstop : n ∉ sortByB strLe (classify st.fleet specs).1 := by
                        intro hmem
                        rcases mem_toStop_iff.mp ((mem_sortByB _ _ _).mp hmem) with
                          ⟨_, hnone⟩
                        rw [hs] at hnone
                        cases hnone
                      rw [if_neg hnstop, hk0 n, hS]
                      by_cases hA : (lookupA st.fleet n).isSome = true
                      · simp [hA]
                      · have hA' : lookupA st.fleet n = none := by
                          cases hfa : lookupA st.fleet n
                          · rfl
                          · rw [hfa] at hA
                            simp at hA
                        have hstart : (n, buildHandle n s) ∈
                            (classify st.fleet specs).2.1 :=
                          toStart_of_mem (lookupA_mem hs) hA'
                        have hS' : n ∈ (sortByB prioLe
                            (classify st.fleet specs).2.1).map (fun nh => nh.1) :=
                          List.mem_map.mpr
                            ⟨(n, buildHandle n s), (mem_sortByB _ _ _).mpr hstart, rfl⟩
                        simp [hS']
                    · have hSn : lookupA specs n = none := by
                        cases hfa : lookupA specs n
                        · rfl
                        · rw [hfa] at hS
                          simp at hS
                      have hR : ¬ n ∈ (sortByB prioLe
                          (classify st.fleet specs).2.2.1).map (fun nh => nh.1) := by
                        intro hmem
                        rcases List.mem_map.mp hmem with ⟨x, hx, hxe⟩
                        rcases mem_toRestart_elim ((mem_sortByB _ _ _).mp hx) with
                          ⟨s, hdl, hsp, _, _, _⟩
                        have hsm := lookupA_isSome_of_mem hsp
                        rw [show ((x.1, s) : String × DSpec).1 = x.1 from rfl,
                          hxe, hSn] at hsm
                        simp at hsm
                      have hT : ¬ n ∈ (sortByB prioLe
                          (classify st.fleet specs).2.1).map (fun nh => nh.1) := by
                        intro hmem
                        rcases List.mem_map.mp hmem with ⟨x, hx, hxe⟩
                        rcases mem_toStart_elim ((mem_sortByB _ _ _).mp hx) with
                          ⟨_, s, hsp, _⟩
                        have hsm := lookupA_isSome_of_mem hsp
                        rw [show ((x.1, s) : String × DSpec).1 = x.1 from rfl,
                          hxe, hSn] at hsm
                        simp at hsm
                      rw [hSn]
                      by_cases hA : (lookupA st.fleet n).isSome = true
                      · have hmem : n ∈ (classify st.fleet specs).1 :=
                          mem_toStop_iff.mpr ⟨hA, hSn⟩
                        rw [if_pos ((mem_sortByB _ _ _).mpr hmem)]
                        simp [hR, hT]
                      · by_cases hin : n ∈ sortByB strLe (classify st.fleet specs).1
                        · rw [if_pos hin]
                          simp [hR, hT]
                        · rw [if_neg hin, hk0 n]
                          simp [hR, hT, hA]
                  · intro name h spec hlookF hlookS hmatch hrunh
                    have hstopne : ∀ m ∈ sortByB strLe (classify st.fleet specs).1,
                        m ≠ name := by
                      intro m hm heq
                      subst heq
                      rcases mem_toStop_iff.mp ((mem_sortByB _ _ _).mp hm) with
                        ⟨_, hnone⟩
                      rw [hlookS] at hnone
                      cases hnone
                    have hrestne : ∀ x ∈ sortByB prioLe
                        (classify st.fleet specs).2.2.1, x.1 ≠ name := by
                      intro x hx heq
                      rcases mem_toRestart_elim ((mem_sortByB _ _ _).mp hx) with
                        ⟨s, hdl, hsp, _, hld, hne⟩
                      rw [heq] at hsp hld hne
                      have hs' : lookupA specs name = some s :=
                        lookupA_eq_of_mem_nodup hnodup hsp
                      rw [hlookS] at hs'
                      cases hs'
                      rw [hlookF] at hld
                      cases hld
                      rw [hmatch] at hne
                      cases hne
                    have hstartne : ∀ x ∈ sortByB prioLe
                        (classify st.fleet specs).2.1, x.1 ≠ name := by
                      intro x hx heq
                      rcases mem_toStart_elim ((mem_sortByB _ _ _).mp hx) with
                        ⟨hnone, _⟩
                      rw [heq, hlookF] at hnone
                      cases hnone
                    have hproj := applyUpdates_proj (classify st.fleet specs).2.2.2
                      st.fleet name
                    rw [hlookF] at hproj
                    cases hlu : lookupA (applyUpdates st.fleet
                        (classify st.fleet specs).2.2.2) name with
                    | none =>
                        rw [hlu] at hproj
                        simp at hproj
                    | some hU =>
                        rw [hlu] at hproj
                        simp only [Option.map_some', Option.some.injEq,
                          Prod.mk.injEq] at hproj
                        have hph1 := runPhase_inv (stopOne leaked)
                          (fun stx => lookupA stx.fleet name = some hU) name
                          (sortByB strLe (classify st.fleet specs).1)
                          (by
                            intro stx x st'' ev hx hP hstep
                            have hxe := hstopne x hx
                            rcases stopOne_state hstep with ⟨hf, hev⟩
                            refine ⟨?_, ?_, ?_⟩
                            · show lookupA st''.fleet name = some hU
                              rw [hf, lookupA_eraseA_ne _ _ _ hxe,
                                lookupA_updateA_ne _ _ _ _ hxe, hP]
                            · rw [hev]
                              intro hm
                              rcases List.mem_singleton.mp hm with heq
                              cases heq
                              exact hxe rfl
                            · rw [hev]
                              simp)
                          _ _ _ hlu h1
                        have hph2 := runPhase_inv (restartOne now)
                          (fun stx => lookupA stx.fleet name = some hU) name
                          (sortByB prioLe (classify st.fleet specs).2.2.1)
                          (by
                            intro stx x st'' ev hx hP hstep
                            have hxe := hrestne x hx
                            refine ⟨?_, ?_, ?_⟩
                            · show lookupA st''.fleet name = some hU
                              rw [(restartOne_fleet hstep).1 name
                                (Ne.symm hxe), hP]
                            · rw [restartOne_events hstep]
                              intro hm
                              rcases List.mem_cons.mp hm with heq | hm2
                              · cases heq
                                exact hxe rfl
                              · rcases List.mem_singleton.mp hm2 with heq
                                cases heq
                            · rw [restartOne_events hstep]
                              intro hm
                              rcases List.mem_cons.mp hm with heq | hm2
                              · cases heq
                              · rcases List.mem_singleton.mp hm2 with heq
                                cases heq
                                exact hxe rfl)
                          ⟨st1.fleet, rqRebuild (classify st.fleet specs).2.1
                            st1.fleet (classify st.fleet specs).2.2.1,
                            st1.nextPid⟩ st2 ev2 hph1.1 h2
                        have hph3 := runPhase_inv (startOne now)
                          (fun stx => lookupA stx.fleet name = some hU) name
                          (sortByB prioLe (classify st.fleet specs).2.1)
                          (by
                            intro stx x st'' ev hx hP hstep
                            have hxe := hstartne x hx
                            refine ⟨?_, ?_, ?_⟩
                            · show lookupA st''.fleet name = some hU
                              rw [(startOne_fleet hstep).1 name (Ne.symm hxe), hP]
                            · rw [startOne_events hstep]
                              simp
                            · rw [startOne_events hstep]
                              intro hm
                              rcases List.mem_singleton.mp hm with heq
                              cases heq
                              exact hxe rfl)
                          _ _ _ hph2.1 h3
                        have hph4 := runPhase_inv (recoverOne now)
                          (fun stx => lookupA stx.fleet name = some hU) name
                          st3.fleet
                          (by
                            intro stx x st'' ev hx hP hstep
                            by_cases hxn : x.1 = name
                            · unfold recoverOne at hstep
                              simp only [] at hstep
                              rw [hxn, hP] at hstep
                              simp only [Option.getD_some] at hstep
                              rw [hproj.2, hrunh] at hstep
                              simp only [if_true] at hstep
                              simp only [Option.some.injEq, Prod.mk.injEq] at hstep
                              rcases hstep with ⟨rfl, rfl⟩
                              exact ⟨hP, by simp, by simp⟩
                            · have hfr := recoverOne_frame hstep hxn
                              refine ⟨?_, hfr.2.1, hfr.2.2⟩
                              show lookupA st''.fleet name = some hU
                              rw [hfr.1, hP])
                          _ _ _ hph3.1 h4
                        refine ⟨hU, hph4.1, hproj.1, ?_, ?_⟩
                        · simp only [List.mem_append]
                          rintro (((hm | hm) | hm) | hm)
                          · exact hph1.2.1 hm
                          · exact hph2.2.1 hm
                          · exact hph3.2.1 hm
                          · exact hph4.2.1 hm
                        · simp only [List.mem_append]
                          rintro (((hm | hm) | hm) | hm)
                          · exact hph1.2.2 hm
                          · exact hph2.2.2 hm
                          · exact hph3.2.2 hm
                          · exact hph4.2.2 hm

/-- A concrete running matched handle (claim C6 scenario): its start
command and admin commands coincide with what `build` produces for the
empty spec, its child has pid 42. -/
def hC6 : Handle :=
  { start_command := Action.sig 15 true,
    admin_commands := [("stop", Action.sig 15 true)], child_pid := some 42,
    name := "a", running := true, restart := [0, 5], start_priority := 7 }

/-- `hC6` after the metadata update of a reload against the empty
spec. -/
def hC6U : Handle := { hC6 with restart := DEFAULT_BACKOFF, start_priority := 10 }

/-- Witness for C6: reloading the one-daemon fleet with a matching
spec keeps the child's pid 42, with no stop/start events. -/
theorem claim_C6_witness :
    ∃ h', lookupA [("a", hC6U)] "a" = some h' ∧ h'.child_pid = hC6.child_pid ∧
      Ev.stop "a" ∉ ([] : List Ev) ∧ Ev.start "a" ∉ ([] : List Ev) :=
  (claim_C6_reload_truth ⟨[("a", hC6)], rqEmpty, 100⟩ [("a", emptyDSpec)]
      "SIGTERM" 0 []
      ⟨[("a", hC6U)], ⟨[], [("a", DEFAULT_BACKOFF)], [("a", 0)], [("a", none)]⟩, 100⟩
      (by decide) (by decide)).2
    "a" hC6 emptyDSpec (by decide) (by decide) (by decide) (by decide)

/-! ## Claim C7 -/

/-- C7 (amended): when every fleet daemon's definition matches the one
rebuilt from the (same) spec, reload stops no child — the only events
it can emit are starts of daemons that were *not running* (the
recovery loop `if not handle["running"]: self._start(...)` starts
them); if every daemon is running, reload emits no event at all. -/
theorem claim_C7_idempotent_reload (st : CState) (specs : List (String × DSpec))
    (leaked : String) (now : Int) (tr : List Ev) (st' : CState)
    (hcover : ∀ nh ∈ st.fleet, (lookupA specs nh.1).isSome = true)
    (hmatch : ∀ ns ∈ specs, ∃ h, lookupA st.fleet ns.1 = some h ∧
      daemonEq (buildHandle ns.1 ns.2) h = true)
    (hre : reload st specs leaked now = some (tr, st')) :
    (∀ e ∈ tr, ∃ n h0, e = Ev.start n ∧ lookupA st.fleet n = some h0 ∧
      h0.running = false) ∧
    ((∀ nh ∈ st.fleet, nh.2.running = true) → tr = []) := by
  have hstop : (classify st.fleet specs).1 = [] := by
    unfold classify
    simp only []
    rw [List.filter_eq_nil_iff.mpr ?_]
    · rfl
    · intro a ha
      have h1 := hcover a ha
      cases hl : lookupA specs a.1 with
      | none =>
          rw [hl] at h1
          simp at h1
      | some v => simp [hl]
  have hstart : (classify st.fleet specs).2.1 = [] := by
    unfold classify
    simp only []
    apply List.filter_eq_nil_iff.mpr
    intro a ha
    rcases List.mem_map.mp ha with ⟨ns, hns, heq⟩
    rcases hmatch ns hns with ⟨h0, hl, _⟩
    rw [← heq]
    simp [hl]
  have hrest : (classify st.fleet specs).2.2.1 = [] := by
    unfold classify
    simp only []
    apply List.filter_eq_nil_iff.mpr
    intro a ha
    rcases List.mem_map.mp ha with ⟨ns, hns, heq⟩
    rcases hmatch ns hns with ⟨h0, hl, heqd⟩
    rw [← heq]
    simp only []
    rw [hl]
    simp [heqd]
  unfold reload at hre
  simp only [] at hre
  rw [hstop, hstart, hrest] at hre
  simp only [sortByB, List.foldr_nil, runPhase] at hre
  split at hre
  · cases hre
  · next st4 ev4 h4 =>
      simp only [Option.some.injEq, Prod.mk.injEq] at hre
      rcases hre with ⟨rfl, rfl⟩
      have hpres : ∀ x ∈ (applyUpdates st.fleet (classify st.fleet specs).2.2.2),
          (lookupA (applyUpdates st.fleet (classify st.fleet specs).2.2.2) x.1).isSome
            = true :=
        fun x hx => lookupA_isSome_of_mem hx
      constructor
      · intro e he
        simp only [List.nil_append] at he
        rcases runPhase_recoverOne_events now _ _ _ _ hpres h4 e he with
          ⟨n, h0, hee, hl, hr⟩
        have hp := applyUpdates_proj (classify st.fleet specs).2.2.2 st.fleet n
        rw [hl] at hp
        cases hl0 : lookupA st.fleet n with
        | none =>
            rw [hl0] at hp
            simp at hp
        | some h1 =>
            rw [hl0] at hp
            simp only [Option.map_some', Option.some.injEq, Prod.mk.injEq] at hp
            refine ⟨n, h1, hee, hl0, ?_⟩
            rw [← hp.2, hr]
      · intro hallrun
        have hall : ∀ x ∈ (applyUpdates st.fleet (classify st.fleet specs).2.2.2),
            ∃ hx, lookupA (applyUpdates st.fleet (classify st.fleet specs).2.2.2) x.1
              = some hx ∧ hx.running = true := by
          intro x hx
          rcases Option.isSome_iff_exists.mp (hpres x hx) with ⟨hx', hlx⟩
          refine ⟨hx', hlx, ?_⟩
          have hp := applyUpdates_proj (classify st.fleet specs).2.2.2 st.fleet x.1
          rw [hlx] at hp
          cases hl0 : lookupA st.fleet x.1 with
          | none =>
              rw [hl0] at hp
              simp at hp
          | some h1 =>
              rw [hl0] at hp
              simp only [Option.map_some', Option.some.injEq, Prod.mk.injEq] at hp
              have hmem := lookupA_mem hl0
              have := hallrun (x.1, h1) hmem
              rw [hp.2]
              exact this
        have := runPhase_recoverOne_all_running now _ _ _ _ hall h4
        simp [this.1]

/-- A freshly built (not running) handle matching the empty spec
(claim C7 scenario). -/
def hC7 : Handle := buildHandle "a" emptyDSpec

/-- C7 counterexample: a fleet whose single daemon matches the spec
but is not running — reloading the *same* parsed spec starts a child
(the recovery path), so "reload stops no child and starts no child"
is false as stated. -/
theorem claim_C7_counterexample :
    daemonEq (buildHandle "a" emptyDSpec) hC7 = true ∧
    (reload ⟨[("a", hC7)], rqAdd rqEmpty "a" DEFAULT_BACKOFF, 300⟩
        [("a", emptyDSpec)] "SIGTERM" 0).map (fun r => r.1) =
      some [Ev.start "a"] ∧
    some [Ev.start "a"] ≠ some ([] : List Ev) := by
  decide

/-- A running matched handle for the C7 witness. -/
def hC7run : Handle :=
  { start_command := Action.sig 15 true,
    admin_commands := [("stop", Action.sig 15 true)], child_pid := some 42,
    name := "a", running := true, restart := [0, 5], start_priority := 7 }

/-- `hC7run` after the metadata update of the reload. -/
def hC7runU : Handle :=
  { hC7run with restart := DEFAULT_BACKOFF, start_priority := 10 }

/-- Witness for C7: with the single matched daemon running, reloading
the same spec produces an empty trace. -/
theorem claim_C7_witness : ([] : List Ev) = [] :=
  (claim_C7_idempotent_reload ⟨[("a", hC7run)], rqEmpty, 100⟩ [("a", emptyDSpec)]
      "SIGTERM" 0 []
      ⟨[("a", hC7runU)], ⟨[], [("a", DEFAULT_BACKOFF)], [("a", 0)], [("a", none)]⟩,
        100⟩
      (by decide) (by decide) (by decide)).2 (by decide)

end DaemonShepherd
